import Mathlib

/-!
# Verification of the work_time_parser report engine

A shallow embedding of `excel_parser.py` (class `ExcelParser`) together with
`enums.py`.  Python floats are modelled as exact rationals (`ℚ`); heterogeneous
Python cell values as the inductive `Val`; the openpyxl worksheet as an ordered
list of cell writes (later writes override earlier ones, as in openpyxl);
Python exceptions raised by the code (`TypeError` from comparing unlike sort
keys, `AttributeError` from calling `strftime`/`.month` on a non-datetime
value, `IndexError` from `data[0]` on an empty list) as an `Except` error type.
Styling-only operations (fonts, fills, merges, column widths, number formats)
are not part of the cell-value model; the process-wide `DEFAULT_FONT` mutation
and the class-level `UNUSED_COLUMNS` list, which claims about shared state
need, are modelled explicitly as a `GlobalState` threaded through calls.
-/

namespace WorkTime

/-- A calendar datetime at day granularity (the code never inspects smaller
components: it formats `%d.%m.%Y`/`%B`, reads `.day`, `.month`, `.year`, and
compares datetimes, which at equal days is decided by the date part). -/
structure DT where
  year : Nat
  month : Nat
  day : Nat
deriving Repr, DecidableEq

/-- A raw Python cell value as handed over by `ws.iter_rows(values_only=True)`:
`None`, a string, a number (Python float/int, modelled as `ℚ`), or a native
datetime. -/
inductive Val where
  | vnone : Val
  | vstr (s : String) : Val
  | vnum (q : ℚ) : Val
  | vdt (d : DT) : Val
deriving Repr, DecidableEq

/-- Python truthiness of a raw value (`None`, `""` and `0` are falsy). -/
def pyTruthy : Val → Bool
  | Val.vnone => false
  | Val.vstr s => s ≠ ""
  | Val.vnum q => q ≠ 0
  | Val.vdt _ => true

/-- Python `a or b`. -/
def pyOr (a b : Val) : Val := if pyTruthy a then a else b

/-- Python `str(v)` as used inside an f-string.  The claims only exercise the
string case; numbers and `None` follow Python's spelling closely enough
(float formatting differences never reach an output cell in this file). -/
def pyStr : Val → String
  | Val.vnone => "None"
  | Val.vstr s => s
  | Val.vnum q => toString q
  | Val.vdt d => toString d.year ++ "-" ++ toString d.month ++ "-" ++ toString d.day

/-- Python `float(v or 0.0)`, the composite the code applies to the hours and
estimate fields.  Faithful on the input contract's domain (`None`, numbers,
and the falsy string `""`, which all reach `float` only as numbers); a
non-empty non-numeric string would raise `ValueError` in Python, which the
claims exclude via numeric-field hypotheses. -/
def floatOrZero (v : Val) : ℚ :=
  match v with
  | Val.vnum q => q
  | _ => 0

/-- The date/hours/estimate fields a Python run would accept without raising
from `float(...)`: `None` or a number. -/
def numericVal : Val → Bool
  | Val.vnone => true
  | Val.vnum _ => true
  | _ => false

/-- Python `calendar.isleap` / the leap rule inside `calendar.monthrange`. -/
def isLeap (y : Nat) : Bool := y % 4 == 0 && (y % 100 != 0 || y % 400 == 0)

/-- Python `calendar.monthrange(year, month)[1]`: the number of days in the month. -/
def monthLastDay (y m : Nat) : Nat :=
  if m = 2 then (if isLeap y then 29 else 28)
  else if m = 4 ∨ m = 6 ∨ m = 9 ∨ m = 11 then 30
  else 31

/-- Zero-padded two-digit rendering (`f"{n:02}"`). -/
def pad2 (n : Nat) : String := if n < 10 then "0" ++ toString n else toString n

/-- Decimal digit value of a character, if it is a digit. -/
def digitVal (c : Char) : Option Nat :=
  if c.isDigit then some (c.toNat - 48) else Option.none

/-- The date-only core of `datetime.fromisoformat`: accepts `YYYY-MM-DD` with
a valid month and day (Python validates the day against the month length and
raises `ValueError`, i.e. `none` here, otherwise). -/
def parseIso (s : String) : Option DT :=
  match s.toList with
  | [y1, y2, y3, y4, h1, m1, m2, h2, d1, d2] =>
    if h1 = '-' ∧ h2 = '-' then
      match digitVal y1, digitVal y2, digitVal y3, digitVal y4,
            digitVal m1, digitVal m2, digitVal d1, digitVal d2 with
      | some a, some b, some c, some d, some e, some f, some g, some h =>
        let y := a * 1000 + b * 100 + c * 10 + d
        let m := e * 10 + f
        let dd := g * 10 + h
        if 1 ≤ m ∧ m ≤ 12 ∧ 1 ≤ dd ∧ dd ≤ monthLastDay y m then
          some ⟨y, m, dd⟩
        else Option.none
      | _, _, _, _, _, _, _, _ => Option.none
    else Option.none
  | _ => Option.none

/-- Source `ExcelParser._parse_date`: a datetime passes through, a string goes
through `datetime.fromisoformat` (returning `None` on `ValueError`), any
other type yields `None`. -/
def parseDate : Val → Option DT
  | Val.vdt d => some d
  | Val.vstr s => parseIso s
  | _ => Option.none

/-- One pruned input row.  The spec's declared 7-field shape is
`{date, project, description, task_name, hours, task_id, estimated_hours}`;
the last two slots are kept as raw values under neutral names because the two
report generators disagree about them: `generate_financial_report` reads the
task id from index 5, while `generate_project_report` reads the estimate from
index 5 and the task id from index 6. -/
structure Row where
  date : Val
  project : String
  description : Val
  taskName : Val
  hours : Val
  field5 : Val
  field6 : Val
deriving Repr, DecidableEq

/-- Strict `<` on raw sort keys of equal type (Python list sort uses `<`).
Unlike-typed pairs are never compared on the sorted path (see `sortOK`). -/
def keyLt : Val → Val → Bool
  | Val.vdt a, Val.vdt b =>
      (a.year < b.year) ||
      (a.year == b.year && (a.month < b.month || (a.month == b.month && a.day < b.day)))
  | Val.vstr a, Val.vstr b => a < b
  | Val.vnum a, Val.vnum b => a < b
  | _, _ => false

/-- Stable insertion of one element into an already-sorted list: the element
goes after every earlier element it is not strictly below, matching the
stability of Python's sort. -/
def insertByDate (x : Row) : List Row → List Row
  | [] => [x]
  | y :: ys => if keyLt x.date y.date then x :: y :: ys else y :: insertByDate x ys

/-- The ascending stable sort `data.sort(key=lambda row: row[0])` performs on
mutually comparable keys. -/
def pySortByDate (l : List Row) : List Row := l.foldl (fun acc x => insertByDate x acc) []

/-- Whether `data.sort(key=lambda row: row[0])` completes: with at most one
row no comparison happens; otherwise CPython compares raw keys pairwise while
sorting, which succeeds exactly when all keys are of one comparable type
(all datetimes, all strings, or all numbers) and raises `TypeError` on any
mixed-type or `None`-involving comparison. -/
def sortOK (l : List Row) : Bool :=
  l.length ≤ 1 ||
  l.all (fun r => match r.date with | Val.vdt _ => true | _ => false) ||
  l.all (fun r => match r.date with | Val.vstr _ => true | _ => false) ||
  l.all (fun r => match r.date with | Val.vnum _ => true | _ => false)

/-- The Python exceptions the report generators can raise. -/
inductive PyErr where
  | typeError : PyErr
  | attributeError : PyErr
  | indexError : PyErr
deriving Repr, DecidableEq

/-- Source `data.sort(key=lambda row: row[0])` as a fallible step. -/
def sortRowsChecked (l : List Row) : Except PyErr (List Row) :=
  if sortOK l then Except.ok (pySortByDate l) else Except.error PyErr.typeError

/-- Python `defaultdict(list)` insertion: append `r` to the group of `key`,
creating the group at the end on first sight (dicts preserve insertion
order). -/
def insertGrouped (key : String) (r : Row) : List (String × List Row) → List (String × List Row)
  | [] => [(key, [r])]
  | (k, rs) :: rest =>
      if k = key then (k, rs ++ [r]) :: rest else (k, rs) :: insertGrouped key r rest

/-- Source `grouped = defaultdict(list); for row in data: grouped[row[1]].append(row)`. -/
def groupByProject (rows : List Row) : List (String × List Row) :=
  rows.foldl (fun acc r => insertGrouped r.project r acc) []

/-- Per-task accumulator of the project report:
`{"task_name": ..., "hours": ..., "estimated": ...}`. -/
structure TaskAgg where
  task_name : Val
  hours : ℚ
  estimated : Option ℚ
deriving Repr, DecidableEq

/-- One fold step on an existing (or freshly defaulted) accumulator, written
exactly as the loop body: the name is overwritten, the hours add up, and the
estimate is assigned only when the stored one `is None` — the accompanying
`estimated is not None` test of the source is always true because `estimated`
is the result of `float(...)`, hence the new value is stored whenever the slot
is still `None`. -/
def applyRow (cur : TaskAgg) (name : Val) (hrs est : ℚ) : TaskAgg :=
  { task_name := name
    hours := cur.hours + hrs
    estimated :=
      match cur.estimated with
      | Option.none => some est
      | some e => some e }

/-- Source `task_map[task_id]` access-and-update on the insertion-ordered
`defaultdict(lambda: {"task_name": "", "hours": 0.0, "estimated": None})`. -/
def updateEntry : List (String × TaskAgg) → String → Val → ℚ → ℚ → List (String × TaskAgg)
  | [], tid, name, hrs, est => [(tid, applyRow ⟨Val.vstr "", 0, Option.none⟩ name hrs est)]
  | (k, agg) :: rest, tid, name, hrs, est =>
      if k = tid then (k, applyRow agg name hrs est) :: rest
      else (k, agg) :: updateEntry rest tid name hrs est

/-- The body of the per-row aggregation loop of `generate_project_report`:
`task_id = row[6]`, `task_name = row[3] or ""`, `hrs = float(row[4] or 0.0)`,
`estimated = float(row[5] or 0.0)`, then the three accumulator updates. -/
def taskUpdate (m : List (String × TaskAgg)) (row : Row) : List (String × TaskAgg) :=
  updateEntry m (pyStr row.field6) (pyOr row.taskName (Val.vstr ""))
    (floatOrZero row.hours) (floatOrZero row.field5)

/-- The whole aggregation loop over one project group. -/
def taskFold (rows : List Row) : List (String × TaskAgg) := rows.foldl taskUpdate []

/-- Lookup in the ordered task map. -/
def lookupTask : List (String × TaskAgg) → String → Option TaskAgg
  | [], _ => Option.none
  | (k, agg) :: rest, tid => if k = tid then some agg else lookupTask rest tid

/-- The split-half two-bucket structure `grouped_by_period`. -/
structure PeriodGroups where
  p1 : List (String × List Row)
  p2 : List (String × List Row)
deriving Repr, DecidableEq

/-- The split-half bucketing loop: skip rows whose date fails `_parse_date`
(`if not date_val: continue`; datetimes are always truthy), then bucket by
`date_val.day <= 15` and group by project inside the bucket. -/
def splitGroups (rows : List Row) : PeriodGroups :=
  rows.foldl
    (fun acc row =>
      match parseDate row.date with
      | Option.none => acc
      | some d =>
        if d.day ≤ 15 then { acc with p1 := insertGrouped row.project row acc.p1 }
        else { acc with p2 := insertGrouped row.project row acc.p2 })
    ⟨[], []⟩

/-- Source `ExcelParser.build_period_titles`: the two banner strings, the second
bounded by `calendar.monthrange(year, month)[1]`. -/
def buildPeriodTitles (d : DT) : String × String :=
  ( "Period: 01." ++ pad2 d.month ++ "." ++ toString d.year ++
      " – 15." ++ pad2 d.month ++ "." ++ toString d.year
  , "Period: 16." ++ pad2 d.month ++ "." ++ toString d.year ++
      " – " ++ toString (monthLastDay d.year d.month) ++ "." ++ pad2 d.month ++ "." ++ toString d.year )

/-- Python `date.strftime("%B").lower()`. -/
def monthNameLower (m : Nat) : String :=
  (["january", "february", "march", "april", "may", "june", "july",
    "august", "september", "october", "november", "december"]).getD (m - 1) ""

/-- Source `ExcelParser.generate_report_filename`. -/
def reportFilename (reportType : String) (d : DT) : String :=
  reportType ++ "_" ++ monthNameLower d.month ++ "_report.xlsx"

/-- Python `date_val.strftime("%d.%m.%Y")`. -/
def fmtDMY (d : DT) : String := pad2 d.day ++ "." ++ pad2 d.month ++ "." ++ toString d.year

/-- Calling `.strftime(...)` or `.month` on a raw value: only a native datetime has
these attributes; any other raw value raises `AttributeError`. -/
def getDT : Val → Except PyErr DT
  | Val.vdt d => Except.ok d
  | _ => Except.error PyErr.attributeError

/-! ## The worksheet model -/

/-- The value content of one written cell.  Formula cells are kept
structurally; `rend` below recovers the exact formula string the code writes.
Hyperlink cells record the URL that is stored both as the cell value and as
its hyperlink target. -/
inductive CellVal where
  | empty : CellVal
  | str (s : String) : CellVal
  | num (q : ℚ) : CellVal
  | dtv (d : DT) : CellVal
  | link (url : String) : CellVal
  /-- Formula `=$<column letter>$<row>`: an absolute reference to cell (row, col). -/
  | fRef (row col : Nat) : CellVal
  /-- Formula `=D<r>*E<r>*F<r>`: the per-row cost formula. -/
  | fProd (r : Nat) : CellVal
  /-- Formula `=SUM(<col><lo>:<col><hi>)`. -/
  | fSum (col lo hi : Nat) : CellVal
  /-- Formula `=SUM(<col><lo>:<col><hi>)/<literal>`: the USD total. -/
  | fSumDiv (col lo hi : Nat) (lit : ℚ) : CellVal
deriving Repr, DecidableEq

/-- Column letter of a 1-based column index (the sheets use columns 1–8). -/
def colLetter (c : Nat) : String :=
  (["A", "B", "C", "D", "E", "F", "G", "H"]).getD (c - 1) ""

/-- The literal string stored in a cell, recovering the exact f-strings of
the source for formula cells. -/
def rend : CellVal → String
  | CellVal.empty => ""
  | CellVal.str s => s
  | CellVal.num q => toString q
  | CellVal.dtv d => toString d.year ++ "-" ++ toString d.month ++ "-" ++ toString d.day
  | CellVal.link url => url
  | CellVal.fRef row col => "=$" ++ colLetter col ++ "$" ++ toString row
  | CellVal.fProd r => "=D" ++ toString r ++ "*E" ++ toString r ++ "*F" ++ toString r
  | CellVal.fSum col lo hi =>
      "=SUM(" ++ colLetter col ++ toString lo ++ ":" ++ colLetter col ++ toString hi ++ ")"
  | CellVal.fSumDiv col lo hi lit =>
      "=SUM(" ++ colLetter col ++ toString lo ++ ":" ++ colLetter col ++ toString hi ++ ")/" ++ toString lit

/-- Source `ws.cell(row=..., column=..., value=raw)` on a raw Python value. -/
def cellOfVal : Val → CellVal
  | Val.vnone => CellVal.empty
  | Val.vstr s => CellVal.str s
  | Val.vnum q => CellVal.num q
  | Val.vdt d => CellVal.dtv d

/-- One `ws.cell(row=..., column=..., value=...)` write. -/
structure Write where
  row : Nat
  col : Nat
  val : CellVal
deriving Repr, DecidableEq

/-- A worksheet as the ordered sequence of its cell writes. -/
abbrev Sheet := List Write

/-- Whether a write lands on cell (r, c). -/
def touches (r c : Nat) (w : Write) : Bool := w.row == r && w.col == c

/-- The value of cell (r, c) after the writes `ws`, starting from `d`
(later writes override earlier ones, as in openpyxl). -/
def getCellD (ws : Sheet) (r c : Nat) (d : CellVal) : CellVal :=
  ws.foldl (fun acc w => if touches r c w then w.val else acc) d

/-- The value of cell (r, c) of the finished sheet (`empty` if never written). -/
def getCell (ws : Sheet) (r c : Nat) : CellVal := getCellD ws r c CellVal.empty

/-- Numeric reading of a cell for spreadsheet arithmetic: literal numbers
read as themselves, everything non-numeric as 0 (Excel's treatment of blank
and text cells inside arithmetic over this sheet's shapes). -/
def evalCell (ws : Sheet) : Nat → CellVal → ℚ
  | 0, _ => 0
  | _ + 1, CellVal.num q => q
  | fuel + 1, CellVal.fRef row col => evalCell ws fuel (getCell ws row col)
  | fuel + 1, CellVal.fProd r =>
      evalCell ws fuel (getCell ws r 4) * evalCell ws fuel (getCell ws r 5) *
        evalCell ws fuel (getCell ws r 6)
  | fuel + 1, CellVal.fSum col lo hi =>
      ((List.range' lo (hi + 1 - lo)).map (fun r => evalCell ws fuel (getCell ws r col))).sum
  | fuel + 1, CellVal.fSumDiv col lo hi lit =>
      ((List.range' lo (hi + 1 - lo)).map (fun r => evalCell ws fuel (getCell ws r col))).sum / lit
  | _ + 1, _ => 0

/-- The TeamWork deep-link base. -/
def teamworkBase : String := "https://avada.teamwork.com/#tasks/"

/-! ## The financial report -/

/-- The Cyrillic financial header row. -/
def finHeaders : List String :=
  ["Проект", "Ссылка на TeamWork", "Описание", "Кол-во часов",
   "Рейт/час [$]", "Курс [$]", "Стоимость (ГРН)", "Дата"]

/-- Source `_write_header_row`: headers into row 1, columns starting at 1. -/
def headerWrites (headers : List String) : Sheet :=
  (headers.enumFrom 1).map (fun p => ⟨1, p.1, CellVal.str p.2⟩)

/-- Source `_write_financial_row`: the eight writes of one financial data row at
`row_cursor = rc` (task id, hyperlink, description, literal hours, rate
reference, exchange reference, cost product formula, formatted date or ""). -/
def financialRowWrites (rc : Nat) (row : Row) (rateRow exchRow : Nat) : Sheet :=
  [ ⟨rc, 1, cellOfVal row.field5⟩
  , ⟨rc, 2, CellVal.link (teamworkBase ++ pyStr row.field5)⟩
  , ⟨rc, 3, cellOfVal (pyOr row.description (Val.vstr ""))⟩
  , ⟨rc, 4, CellVal.num (floatOrZero row.hours)⟩
  , ⟨rc, 5, CellVal.fRef rateRow 7⟩
  , ⟨rc, 6, CellVal.fRef exchRow 7⟩
  , ⟨rc, 7, CellVal.fProd rc⟩
  , ⟨rc, 8, CellVal.str (match parseDate row.date with
                         | some d => fmtDMY d
                         | Option.none => "")⟩ ]

/-- The inner `for row in rows` loop: one financial row per entry, the cursor
advancing by one per row. -/
def entryWrites (rc : Nat) (rows : List Row) (rateRow exchRow : Nat) : Sheet :=
  match rows with
  | [] => []
  | row :: rest => financialRowWrites rc row rateRow exchRow ++ entryWrites (rc + 1) rest rateRow exchRow

/-- The `for project, rows in grouped.items()` loop: merged title row, the
entries, then three blank rows; returns the writes and the final cursor. -/
def financialBlocks (rc : Nat) (groups : List (String × List Row)) (rateRow exchRow : Nat) :
    Sheet × Nat :=
  match groups with
  | [] => ([], rc)
  | (proj, rows) :: rest =>
    let head := (⟨rc, 1, CellVal.str proj⟩ : Write) :: entryWrites (rc + 1) rows rateRow exchRow
    let tail := financialBlocks (rc + 1 + rows.length + 3) rest rateRow exchRow
    (head ++ tail.1, tail.2)

/-- Source `total_data_rows = sum(len(rows) + 4 for rows in grouped.values())`. -/
def totalOf (groups : List (String × List Row)) : Nat :=
  (groups.map (fun g => g.2.length + 4)).sum

/-- Source `_write_bottom_totals`: rate/exchange labels and input values at the
precomputed rows, then the three totals rows starting at `rowCursor`, in
source write order. -/
def bottomTotalsWrites (rowCursor lastDataRow : Nat) (rate : Int) (exchangeRate : ℚ)
    (rateRow exchRow : Nat) : Sheet :=
  [ ⟨rateRow, 6, CellVal.str "Рейт"⟩
  , ⟨exchRow, 6, CellVal.str "Курс"⟩
  , ⟨rateRow, 7, CellVal.num (rate : ℚ)⟩
  , ⟨exchRow, 7, CellVal.num exchangeRate⟩
  , ⟨rowCursor, 2, CellVal.str "ИТОГО часов"⟩
  , ⟨rowCursor, 4, CellVal.fSum 4 2 lastDataRow⟩
  , ⟨rowCursor, 5, CellVal.str "часов"⟩
  , ⟨rowCursor + 1, 2, CellVal.str "ИТОГО к оплате"⟩
  , ⟨rowCursor + 1, 4, CellVal.fSum 7 2 lastDataRow⟩
  , ⟨rowCursor + 1, 5, CellVal.str "UAH"⟩
  , ⟨rowCursor + 2, 2, CellVal.str "ИТОГО в долларах"⟩
  , ⟨rowCursor + 2, 4, CellVal.fSumDiv 7 2 lastDataRow exchangeRate⟩
  , ⟨rowCursor + 2, 5, CellVal.str "$"⟩ ]

/-- The output of one financial-report call: the written sheet and the saved
filename. -/
structure FinOut where
  sheet : Sheet
  filename : String
deriving Repr, DecidableEq

/-- The full sequence of writes `generate_financial_report` performs on the
new worksheet for an already-sorted dataset: header row, project blocks
(merged title, entries, three blank rows each), then `_write_bottom_totals`
with `last_data_row = row_cursor - 4` and the totals block starting at
`row_cursor + 1`. -/
def finSheet (sorted : List Row) (rate : Int) (exchangeRate : ℚ) : Sheet :=
  let grouped := groupByProject sorted
  let totalDataRows := totalOf grouped
  let rateRow := totalDataRows + 2
  let exchRow := rateRow + 1
  let body := financialBlocks 2 grouped rateRow exchRow
  headerWrites finHeaders ++ body.1 ++
    bottomTotalsWrites (body.2 + 1) (body.2 - 4) rate exchangeRate rateRow exchRow

/-- Source `ExcelParser.generate_financial_report` after the upstream pruning:
sort (raising `TypeError` on incomparable raw dates), group by project,
precompute `rate_row`/`exchange_row` from `total_data_rows`, write header,
project blocks and bottom totals, then derive the filename from
`data[0][0]` — raising `IndexError` on an empty dataset and
`AttributeError` when that raw value is not a datetime. -/
def generateFinancialReport (data : List Row) (rate : Int) (exchangeRate : ℚ) :
    Except PyErr FinOut :=
  match sortRowsChecked data with
  | Except.error e => Except.error e
  | Except.ok sorted =>
    match sorted with
    | [] => Except.error PyErr.indexError
    | first :: _ =>
      match getDT first.date with
      | Except.error e => Except.error e
      | Except.ok d0 =>
          Except.ok ⟨finSheet sorted rate exchangeRate, reportFilename "financial" d0⟩

/-! ## The project report -/

/-- Source `enums.ReportGroupingType`. -/
inductive ReportGroupingType where
  | FULL_MONTH : ReportGroupingType
  | SPLIT_HALF : ReportGroupingType
deriving Repr, DecidableEq

/-- Source `ReportGroupingType.value`. -/
def groupingValue : ReportGroupingType → String
  | ReportGroupingType.FULL_MONTH => "full_month"
  | ReportGroupingType.SPLIT_HALF => "split_half"

/-- The English project-report header row. -/
def projHeaders : List String :=
  ["Task name", "Link to TeamWork", "Estimated time", "Total count time"]

/-- Python truthiness of the stored estimate (`task["estimated"] if
task["estimated"] else None`): `None` and `0.0` are falsy. -/
def estTruthy : Option ℚ → Bool
  | Option.none => false
  | some q => q ≠ 0

/-- The four writes of one task row of the project report. -/
def taskRowWrites (rc : Nat) (tid : String) (t : TaskAgg) : Sheet :=
  [ ⟨rc, 1, cellOfVal t.task_name⟩
  , ⟨rc, 2, CellVal.link (teamworkBase ++ tid)⟩
  , ⟨rc, 3, if estTruthy t.estimated then CellVal.num (t.estimated.getD 0) else CellVal.empty⟩
  , ⟨rc, 4, CellVal.num t.hours⟩ ]

/-- The `for task_id, task in task_map.items()` loop. -/
def taskRowsWrites (rc : Nat) (m : List (String × TaskAgg)) : Sheet :=
  match m with
  | [] => []
  | (tid, t) :: rest => taskRowWrites rc tid t ++ taskRowsWrites (rc + 1) rest

/-- The `for project, rows in ...` loop of the project report: merged title
row, aggregated task rows, then two blank rows per project; returns the
writes and the final cursor. -/
def projBlocks (rc : Nat) (groups : List (String × List Row)) : Sheet × Nat :=
  match groups with
  | [] => ([], rc)
  | (proj, rows) :: rest =>
    let m := taskFold rows
    let head := (⟨rc, 1, CellVal.str proj⟩ : Write) :: taskRowsWrites (rc + 1) m
    let tail := projBlocks (rc + 1 + m.length + 2) rest
    (head ++ tail.1, tail.2)

/-- The split-half body: the first period banner, its project blocks, two
blank rows, the second banner, its blocks, two blank rows. -/
def splitBody (rc : Nat) (pg : PeriodGroups) (t1 t2 : String) : Sheet × Nat :=
  let b1 := projBlocks (rc + 1) pg.p1
  let b2 := projBlocks (b1.2 + 2 + 1) pg.p2
  ( (⟨rc, 1, CellVal.str t1⟩ : Write) :: b1.1 ++ (⟨b1.2 + 2, 1, CellVal.str t2⟩ : Write) :: b2.1
  , b2.2 + 2 )

/-- The output of one project-report call. -/
structure ProjOut where
  sheet : Sheet
  filename : String
deriving Repr, DecidableEq

/-- Source `ExcelParser.generate_project_report` after the upstream pruning: sort,
group by project, write the header, then branch on the grouping mode.  Both
branches derive the filename from `data[0][0]` (`IndexError` when empty,
`AttributeError` when not a datetime); the split branch additionally feeds
`data[0][0]` to `build_period_titles`. -/
def generateProjectReport (data : List Row) (gt : ReportGroupingType) :
    Except PyErr ProjOut :=
  match sortRowsChecked data with
  | Except.error e => Except.error e
  | Except.ok sorted =>
    match gt with
    | ReportGroupingType.SPLIT_HALF =>
      match sorted with
      | [] => Except.error PyErr.indexError
      | first :: _ =>
        match getDT first.date with
        | Except.error e => Except.error e
        | Except.ok d0 =>
          let filename :=
            reportFilename (groupingValue ReportGroupingType.SPLIT_HALF ++ "_project") d0
          let titles := buildPeriodTitles d0
          let body := splitBody 2 (splitGroups sorted) titles.1 titles.2
          Except.ok ⟨headerWrites projHeaders ++ body.1, filename⟩
    | ReportGroupingType.FULL_MONTH =>
      match sorted with
      | [] => Except.error PyErr.indexError
      | first :: _ =>
        match getDT first.date with
        | Except.error e => Except.error e
        | Except.ok d0 =>
          let filename :=
            reportFilename (groupingValue ReportGroupingType.FULL_MONTH ++ "_project") d0
          let body := projBlocks 2 (groupByProject sorted)
          Except.ok ⟨headerWrites projHeaders ++ body.1, filename⟩

/-! ## Shared class/process state (`DEFAULT_FONT`, `UNUSED_COLUMNS`) -/

/-- The initial value of the class attribute `ExcelParser.UNUSED_COLUMNS`. -/
def unusedColumnsInit : List String :=
  ["A", "C", "D", "F", "H", "I", "J", "L", "M", "N", "O", "P",
   "Q", "S", "T", "U", "V", "W", "X", "Y", "Z"]

/-- The process-wide state the parser touches: openpyxl's `DEFAULT_FONT.name`
and the class-level `UNUSED_COLUMNS` list (shared by all instances). -/
structure GlobalState where
  defaultFontName : String
  unusedColumns : List String
deriving Repr, DecidableEq

/-- Source `ExcelParser.__init__`: stores the path (irrelevant here) and assigns
`DEFAULT_FONT.name = "Ubuntu"`, mutating the process-wide default font. -/
def parserInit (g : GlobalState) : GlobalState := { g with defaultFontName := "Ubuntu" }

/-- Source `ExcelParser.remove_unused_columns`: for a project report it first
executes `self.UNUSED_COLUMNS.pop(14)`, permanently shrinking the shared
class-level list; it then deletes exactly the columns named by the (possibly
shrunken) list.  Returns the new global state and the letters deleted by this
call. -/
def removeUnusedColumns (g : GlobalState) (isProjectReport : Bool) :
    GlobalState × List String :=
  let cols := if isProjectReport then g.unusedColumns.eraseIdx 14 else g.unusedColumns
  ({ g with unusedColumns := cols }, cols)

/-! ## Derived positions and helper observations used by the statements -/

/-- The rows of the sorted dataset grouped by project, as the financial
report builds them. -/
def finGroups (data : List Row) : List (String × List Row) :=
  groupByProject (pySortByDate data)

/-- Value `total_data_rows` of a financial run. -/
def finTotal (data : List Row) : Nat := totalOf (finGroups data)

/-- Position `rate_row = total_data_rows + 2`. -/
def finRateRow (data : List Row) : Nat := finTotal data + 2

/-- Position `exchange_row = rate_row + 1`. -/
def finExchRow (data : List Row) : Nat := finRateRow data + 1

/-- Position `last_data_row = row_cursor - 4` with the loop-final cursor
`row_cursor = 2 + total_data_rows`. -/
def finLastDataRow (data : List Row) : Nat := 2 + finTotal data - 4

/-- The absolute sheet row each entry of each project group is written to:
each block holds its title at the cursor, its entries on the following rows,
and leaves three blank rows before the next block. -/
def entryAssignRows (rc : Nat) (rows : List Row) : List (Nat × Row) :=
  match rows with
  | [] => []
  | r :: rest => (rc, r) :: entryAssignRows (rc + 1) rest

/-- Entry-row assignment across all project blocks, mirroring the cursor
arithmetic of `generate_financial_report`. -/
def entryAssign (rc : Nat) (groups : List (String × List Row)) : List (Nat × Row) :=
  match groups with
  | [] => []
  | (_, rows) :: rest =>
      entryAssignRows (rc + 1) rows ++ entryAssign (rc + 1 + rows.length + 3) rest

/-- The rows contained in a project grouping, in block order. -/
def flatGroups (groups : List (String × List Row)) : List Row :=
  (groups.map (fun g => g.2)).flatten

/-- Helper `rows.find?` for the first row carrying a given task id (project-report
identity `task_id = row[6]`). -/
def firstOccur (tid : String) (rows : List Row) : Option Row :=
  rows.find? (fun r => pyStr r.field6 == tid)

/-- Total aggregated hours of a task map. -/
def hoursTotal (m : List (String × TaskAgg)) : ℚ := (m.map (fun p => p.2.hours)).sum

/-- Total raw hours of a list of rows, null hours defaulting to 0.0. -/
def rawHoursTotal (rows : List Row) : ℚ := (rows.map (fun r => floatOrZero r.hours)).sum

/-- The literal numeric content of a cell (0 for anything non-numeric). -/
def litNum : CellVal → ℚ
  | CellVal.num q => q
  | _ => 0

/-! ## Worksheet lookup lemmas -/

theorem getCellD_append (a b : Sheet) (r c : Nat) (d : CellVal) :
    getCellD (a ++ b) r c d = getCellD b r c (getCellD a r c d) := by
  simp [getCellD, List.foldl_append]

theorem getCellD_untouched {l : Sheet} {r c : Nat}
    (h : ∀ w ∈ l, touches r c w = false) (d : CellVal) : getCellD l r c d = d := by
  induction l with
  | nil => rfl
  | cons w ws ih =>
      simp only [getCellD, List.foldl_cons]
      rw [h w (List.mem_cons_self w ws)]
      exact ih (fun x hx => h x (List.mem_cons_of_mem w hx))

theorem getCellD_cons (w : Write) (l : Sheet) (r c : Nat) (d : CellVal) :
    getCellD (w :: l) r c d = getCellD l r c (if touches r c w then w.val else d) := rfl

theorem touches_false_of_row_ne {r c : Nat} {w : Write} (h : w.row ≠ r) :
    touches r c w = false := by
  simp [touches]
  intro hr
  exact absurd hr h

theorem touches_false_of_col_ne {r c : Nat} {w : Write} (h : w.col ≠ c) :
    touches r c w = false := by
  simp [touches]
  intro _
  exact h

/-! ## Membership lemmas for sorting and grouping -/

theorem mem_insertByDate (x r : Row) (l : List Row) :
    x ∈ insertByDate r l ↔ x = r ∨ x ∈ l := by
  induction l with
  | nil => simp [insertByDate]
  | cons y ys ih =>
      rw [insertByDate]
      by_cases h : keyLt r.date y.date
      · simp [h]
      · rw [if_neg h]
        simp only [List.mem_cons, ih]
        tauto

theorem mem_pySortByDate (x : Row) (l : List Row) :
    x ∈ pySortByDate l ↔ x ∈ l := by
  have key : ∀ (l : List Row) (acc : List Row),
      x ∈ l.foldl (fun acc y => insertByDate y acc) acc ↔ x ∈ acc ∨ x ∈ l := by
    intro l
    induction l with
    | nil => intro acc; simp
    | cons y ys ih =>
        intro acc
        simp only [List.foldl_cons, ih, mem_insertByDate, List.mem_cons]
        tauto
  simpa [pySortByDate] using key l []

theorem flatGroups_cons (g : String × List Row) (rest : List (String × List Row)) :
    flatGroups (g :: rest) = g.2 ++ flatGroups rest := by
  simp [flatGroups]

theorem mem_flat_insertGrouped (x : Row) (k : String) (r : Row)
    (acc : List (String × List Row)) :
    x ∈ flatGroups (insertGrouped k r acc) ↔ x ∈ flatGroups acc ∨ x = r := by
  induction acc with
  | nil => simp [insertGrouped, flatGroups, eq_comm]
  | cons g rest ih =>
      obtain ⟨k', rs⟩ := g
      rw [insertGrouped]
      by_cases h : k' = k
      · rw [if_pos h]
        simp only [flatGroups_cons, List.mem_append, List.mem_singleton]
        tauto
      · rw [if_neg h]
        simp only [flatGroups_cons, List.mem_append, ih]
        tauto

theorem mem_flatGroups_groupByProject (x : Row) (l : List Row) :
    x ∈ flatGroups (groupByProject l) → x ∈ l := by
  have key : ∀ (l : List Row) (acc : List (String × List Row)),
      x ∈ flatGroups (l.foldl (fun acc r => insertGrouped r.project r acc) acc) →
      x ∈ flatGroups acc ∨ x ∈ l := by
    intro l
    induction l with
    | nil => intro acc h; exact Or.inl h
    | cons y ys ih =>
        intro acc h
        rcases ih _ h with h' | h'
        · rw [mem_flat_insertGrouped] at h'
          rcases h' with h' | h'
          · exact Or.inl h'
          · exact Or.inr (h' ▸ List.mem_cons_self y ys)
        · exact Or.inr (List.mem_cons_of_mem y h')
  intro h
  rcases key l [] h with h' | h'
  · simp [flatGroups] at h'
  · exact h'

/-- Self-membership after a grouped insertion. -/
theorem self_mem_flat_insertGrouped (k : String) (r : Row) (acc : List (String × List Row)) :
    r ∈ flatGroups (insertGrouped k r acc) := by
  rw [mem_flat_insertGrouped]
  exact Or.inr rfl

/-- One step of the split-half bucketing loop. -/
def splitStep (acc : PeriodGroups) (row : Row) : PeriodGroups :=
  match parseDate row.date with
  | Option.none => acc
  | some d =>
    if d.day ≤ 15 then { acc with p1 := insertGrouped row.project row acc.p1 }
    else { acc with p2 := insertGrouped row.project row acc.p2 }

theorem splitGroups_eq_foldl (rows : List Row) :
    splitGroups rows = rows.foldl splitStep ⟨[], []⟩ := by
  rfl

/-- Bucket membership is preserved by later bucketing steps. -/
theorem splitStep_mono (acc : PeriodGroups) (row x : Row) :
    (x ∈ flatGroups acc.p1 → x ∈ flatGroups (splitStep acc row).p1) ∧
    (x ∈ flatGroups acc.p2 → x ∈ flatGroups (splitStep acc row).p2) := by
  cases hp : parseDate row.date with
  | none => simp only [splitStep, hp]; exact ⟨id, id⟩
  | some d =>
      by_cases hd : d.day ≤ 15
      · simp only [splitStep, hp, if_pos hd]
        exact ⟨fun h => (mem_flat_insertGrouped x row.project row acc.p1).mpr (Or.inl h), id⟩
      · simp only [splitStep, hp, if_neg hd]
        exact ⟨id, fun h => (mem_flat_insertGrouped x row.project row acc.p2).mpr (Or.inl h)⟩

theorem splitFold_mono (rows : List Row) (acc : PeriodGroups) (x : Row) :
    (x ∈ flatGroups acc.p1 → x ∈ flatGroups (rows.foldl splitStep acc).p1) ∧
    (x ∈ flatGroups acc.p2 → x ∈ flatGroups (rows.foldl splitStep acc).p2) := by
  induction rows generalizing acc with
  | nil => exact ⟨id, id⟩
  | cons r rest ih =>
      refine ⟨fun h => ?_, fun h => ?_⟩
      · exact (ih (splitStep acc r)).1 ((splitStep_mono acc r x).1 h)
      · exact (ih (splitStep acc r)).2 ((splitStep_mono acc r x).2 h)

/-- Every row of the dataset with a parsable date lands in the bucket its
day-of-month selects. -/
theorem mem_splitGroups_of_day (rows : List Row) (row : Row) (d : DT)
    (hmem : row ∈ rows) (hp : parseDate row.date = some d) :
    (d.day ≤ 15 → row ∈ flatGroups (splitGroups rows).p1) ∧
    (¬ d.day ≤ 15 → row ∈ flatGroups (splitGroups rows).p2) := by
  rw [splitGroups_eq_foldl]
  obtain ⟨l1, l2, rfl⟩ := List.append_of_mem hmem
  rw [List.foldl_append, List.foldl_cons]
  constructor
  · intro hd
    apply (splitFold_mono l2 _ row).1
    simp only [splitStep, hp, if_pos hd]
    exact self_mem_flat_insertGrouped row.project row _
  · intro hd
    apply (splitFold_mono l2 _ row).2
    simp only [splitStep, hp, if_neg hd]
    exact self_mem_flat_insertGrouped row.project row _

/-- Only rows with a parsable date are ever bucketed. -/
theorem splitGroups_parsable (rows : List Row) (x : Row) :
    (x ∈ flatGroups (splitGroups rows).p1 ∨ x ∈ flatGroups (splitGroups rows).p2) →
    ∃ d, parseDate x.date = some d := by
  rw [splitGroups_eq_foldl]
  have key : ∀ (l : List Row) (acc : PeriodGroups),
      (x ∈ flatGroups (l.foldl splitStep acc).p1 ∨ x ∈ flatGroups (l.foldl splitStep acc).p2) →
      (x ∈ flatGroups acc.p1 ∨ x ∈ flatGroups acc.p2) ∨ ∃ d, parseDate x.date = some d := by
    intro l
    induction l with
    | nil => intro acc h; exact Or.inl h
    | cons r rest ih =>
        intro acc h
        rcases ih (splitStep acc r) h with h' | h'
        · cases hp : parseDate r.date with
          | none => simp only [splitStep, hp] at h'; exact Or.inl h'
          | some d =>
              by_cases hd : d.day ≤ 15
              · simp only [splitStep, hp, if_pos hd] at h'
                rcases h' with h' | h'
                · rcases (mem_flat_insertGrouped x r.project r acc.p1).mp h' with h'' | h''
                  · exact Or.inl (Or.inl h'')
                  · exact Or.inr ⟨d, h'' ▸ hp⟩
                · exact Or.inl (Or.inr h')
              · simp only [splitStep, hp, if_neg hd] at h'
                rcases h' with h' | h'
                · exact Or.inl (Or.inl h')
                · rcases (mem_flat_insertGrouped x r.project r acc.p2).mp h' with h'' | h''
                  · exact Or.inl (Or.inr h'')
                  · exact Or.inr ⟨d, h'' ▸ hp⟩
        · exact Or.inr h'
  intro h
  rcases key rows ⟨[], []⟩ h with h' | h'
  · simp [flatGroups] at h'
  · exact h'

/-- Rows in either bucket come from the dataset. -/
theorem mem_splitGroups_sub (rows : List Row) (x : Row) :
    (x ∈ flatGroups (splitGroups rows).p1 ∨ x ∈ flatGroups (splitGroups rows).p2) →
    x ∈ rows := by
  rw [splitGroups_eq_foldl]
  have key : ∀ (l : List Row) (acc : PeriodGroups),
      (x ∈ flatGroups (l.foldl splitStep acc).p1 ∨ x ∈ flatGroups (l.foldl splitStep acc).p2) →
      (x ∈ flatGroups acc.p1 ∨ x ∈ flatGroups acc.p2) ∨ x ∈ l := by
    intro l
    induction l with
    | nil => intro acc h; exact Or.inl h
    | cons r rest ih =>
        intro acc h
        rcases ih (splitStep acc r) h with h' | h'
        · cases hp : parseDate r.date with
          | none => simp only [splitStep, hp] at h'; exact Or.inl h'
          | some d =>
              by_cases hd : d.day ≤ 15
              · simp only [splitStep, hp, if_pos hd] at h'
                rcases h' with h' | h'
                · rcases (mem_flat_insertGrouped x r.project r acc.p1).mp h' with h'' | h''
                  · exact Or.inl (Or.inl h'')
                  · exact Or.inr (h'' ▸ List.mem_cons_self r rest)
                · exact Or.inl (Or.inr h')
              · simp only [splitStep, hp, if_neg hd] at h'
                rcases h' with h' | h'
                · exact Or.inl (Or.inl h')
                · rcases (mem_flat_insertGrouped x r.project r acc.p2).mp h' with h'' | h''
                  · exact Or.inl (Or.inr h'')
                  · exact Or.inr (h'' ▸ List.mem_cons_self r rest)
        · exact Or.inr (List.mem_cons_of_mem r h')
  intro h
  rcases key rows ⟨[], []⟩ h with h' | h'
  · simp [flatGroups] at h'
  · exact h'

/-! ## Task-aggregation lemmas -/

theorem lookupTask_updateEntry_self (m : List (String × TaskAgg)) (tid : String)
    (name : Val) (hrs est : ℚ) :
    lookupTask (updateEntry m tid name hrs est) tid =
      some (applyRow ((lookupTask m tid).getD ⟨Val.vstr "", 0, Option.none⟩) name hrs est) := by
  induction m with
  | nil => simp [updateEntry, lookupTask]
  | cons p rest ih =>
      obtain ⟨k, agg⟩ := p
      rw [updateEntry]
      by_cases h : k = tid
      · rw [if_pos h, lookupTask, if_pos h, lookupTask, if_pos h]
        simp
      · rw [if_neg h, lookupTask, if_neg h, lookupTask, if_neg h]
        exact ih

theorem lookupTask_updateEntry_ne (m : List (String × TaskAgg)) (tid tid' : String)
    (name : Val) (hrs est : ℚ) (h : tid' ≠ tid) :
    lookupTask (updateEntry m tid name hrs est) tid' = lookupTask m tid' := by
  induction m with
  | nil =>
      simp only [updateEntry, lookupTask, if_neg (fun he : tid = tid' => h he.symm)]
  | cons p rest ih =>
      obtain ⟨k, agg⟩ := p
      rw [updateEntry]
      by_cases hk : k = tid
      · rw [if_pos hk]
        have hne : k ≠ tid' := fun he => h (he ▸ hk)
        rw [lookupTask, if_neg hne, lookupTask, if_neg hne]
      · rw [if_neg hk, lookupTask, lookupTask]
        by_cases hk' : k = tid'
        · rw [if_pos hk', if_pos hk']
        · rw [if_neg hk', if_neg hk']
          exact ih

theorem estimated_applyRow (cur : TaskAgg) (name : Val) (hrs est : ℚ) :
    (applyRow cur name hrs est).estimated =
      match cur.estimated with
      | Option.none => some est
      | some e => some e := rfl

/-- Once an aggregate's estimate is set, later rows never change it. -/
theorem estimate_persists (rows : List Row) (acc : List (String × TaskAgg))
    (tid : String) (agg0 : TaskAgg) (e : ℚ)
    (h0 : lookupTask acc tid = some agg0) (he : agg0.estimated = some e) :
    ∃ agg, lookupTask (rows.foldl taskUpdate acc) tid = some agg ∧ agg.estimated = some e := by
  induction rows generalizing acc agg0 with
  | nil => exact ⟨agg0, h0, he⟩
  | cons r rest ih =>
      rw [List.foldl_cons]
      by_cases hk : pyStr r.field6 = tid
      · have hset := lookupTask_updateEntry_self acc (pyStr r.field6)
          (pyOr r.taskName (Val.vstr "")) (floatOrZero r.hours) (floatOrZero r.field5)
        rw [hk, h0, Option.getD_some] at hset
        refine ih (taskUpdate acc r)
          (applyRow agg0 (pyOr r.taskName (Val.vstr "")) (floatOrZero r.hours)
            (floatOrZero r.field5)) ?_ ?_
        · rw [taskUpdate, hk]
          exact hset
        · rw [estimated_applyRow, he]
      · refine ih (taskUpdate acc r) agg0 ?_ he
        rw [taskUpdate]
        rw [lookupTask_updateEntry_ne _ _ _ _ _ _ (fun hh => hk hh.symm)]
        exact h0

/-- When the id is absent from the accumulator, the first matching row of
the remaining list fixes the estimate as its coerced `float(row[5] or 0.0)`
value. -/
theorem estimate_first_row (rows : List Row) (acc : List (String × TaskAgg))
    (tid : String) (r : Row)
    (h0 : lookupTask acc tid = Option.none) (hf : firstOccur tid rows = some r) :
    ∃ agg, lookupTask (rows.foldl taskUpdate acc) tid = some agg ∧
      agg.estimated = some (floatOrZero r.field5) := by
  induction rows generalizing acc with
  | nil => simp [firstOccur] at hf
  | cons r0 rest ih =>
      rw [List.foldl_cons]
      by_cases hk : pyStr r0.field6 = tid
      · have hr : r = r0 := by
          rw [firstOccur, List.find?_cons_of_pos _ (by simpa using hk)] at hf
          exact (Option.some_injective _ hf).symm
        subst hr
        have hset := lookupTask_updateEntry_self acc (pyStr r.field6)
          (pyOr r.taskName (Val.vstr "")) (floatOrZero r.hours) (floatOrZero r.field5)
        rw [hk, h0] at hset
        refine estimate_persists rest (taskUpdate acc r) tid
          (applyRow (Option.none.getD ⟨Val.vstr "", 0, Option.none⟩)
            (pyOr r.taskName (Val.vstr "")) (floatOrZero r.hours) (floatOrZero r.field5))
          (floatOrZero r.field5) ?_ ?_
        · rw [taskUpdate, hk]
          exact hset
        · rw [estimated_applyRow]
          rfl
      · rw [firstOccur, List.find?_cons_of_neg _ (by simpa using hk)] at hf
        refine ih (taskUpdate acc r0) ?_ hf
        rw [taskUpdate, lookupTask_updateEntry_ne _ _ _ _ _ _ (fun hh => hk hh.symm)]
        exact h0

/-- Ids never mentioned by the rows stay absent. -/
theorem lookup_absent (rows : List Row) (acc : List (String × TaskAgg)) (tid : String)
    (h0 : lookupTask acc tid = Option.none) (hf : firstOccur tid rows = Option.none) :
    lookupTask (rows.foldl taskUpdate acc) tid = Option.none := by
  induction rows generalizing acc with
  | nil => exact h0
  | cons r0 rest ih =>
      rw [firstOccur] at hf
      by_cases hk : pyStr r0.field6 = tid
      · rw [List.find?_cons_of_pos _ (by simpa using hk)] at hf
        exact absurd hf (by simp)
      · rw [List.find?_cons_of_neg _ (by simpa using hk)] at hf
        rw [List.foldl_cons]
        refine ih (taskUpdate acc r0) ?_ hf
        rw [taskUpdate, lookupTask_updateEntry_ne _ _ _ _ _ _ (fun hh => hk hh.symm)]
        exact h0

theorem hoursTotal_updateEntry (m : List (String × TaskAgg)) (tid : String)
    (name : Val) (hrs est : ℚ) :
    hoursTotal (updateEntry m tid name hrs est) = hoursTotal m + hrs := by
  induction m with
  | nil => simp [updateEntry, hoursTotal, applyRow]
  | cons p rest ih =>
      obtain ⟨k, agg⟩ := p
      rw [updateEntry]
      by_cases h : k = tid
      · rw [if_pos h]
        simp [hoursTotal, applyRow]
        ring
      · rw [if_neg h]
        simp only [hoursTotal, List.map_cons, List.sum_cons] at ih ⊢
        rw [ih]
        ring

theorem hoursTotal_foldl (rows : List Row) (acc : List (String × TaskAgg)) :
    hoursTotal (rows.foldl taskUpdate acc) = hoursTotal acc + rawHoursTotal rows := by
  induction rows generalizing acc with
  | nil => simp [rawHoursTotal]
  | cons r rest ih =>
      rw [List.foldl_cons, ih, taskUpdate, hoursTotal_updateEntry]
      simp [rawHoursTotal]
      ring

/-- Keys of the task map all come from `row[6]` of some processed row. -/
theorem keys_updateEntry (m : List (String × TaskAgg)) (tid k : String)
    (name : Val) (hrs est : ℚ) :
    k ∈ (updateEntry m tid name hrs est).map (fun p => p.1) →
    k ∈ m.map (fun p => p.1) ∨ k = tid := by
  induction m with
  | nil => simp [updateEntry]
  | cons p rest ih =>
      obtain ⟨k', agg⟩ := p
      rw [updateEntry]
      by_cases h : k' = tid
      · rw [if_pos h]
        simp only [List.map_cons, List.mem_cons]
        intro hh
        rcases hh with hh | hh
        · exact Or.inl (Or.inl hh)
        · exact Or.inl (Or.inr hh)
      · rw [if_neg h]
        simp only [List.map_cons, List.mem_cons]
        intro hh
        rcases hh with hh | hh
        · exact Or.inl (Or.inl hh)
        · rcases ih hh with hh' | hh'
          · exact Or.inl (Or.inr hh')
          · exact Or.inr hh'

theorem keys_taskFold (rows : List Row) (k : String) :
    k ∈ (taskFold rows).map (fun p => p.1) → ∃ row ∈ rows, k = pyStr row.field6 := by
  have key : ∀ (l : List Row) (acc : List (String × TaskAgg)),
      k ∈ (l.foldl taskUpdate acc).map (fun p => p.1) →
      k ∈ acc.map (fun p => p.1) ∨ ∃ row ∈ l, k = pyStr row.field6 := by
    intro l
    induction l with
    | nil => intro acc h; exact Or.inl h
    | cons r rest ih =>
        intro acc h
        rw [List.foldl_cons] at h
        rcases ih (taskUpdate acc r) h with h' | h'
        · rw [taskUpdate] at h'
          rcases keys_updateEntry acc (pyStr r.field6) k _ _ _ h' with h'' | h''
          · exact Or.inl h''
          · exact Or.inr ⟨r, List.mem_cons_self r rest, h''⟩
        · obtain ⟨row, hrow, hk⟩ := h'
          exact Or.inr ⟨row, List.mem_cons_of_mem r hrow, hk⟩
  intro h
  rcases key rows [] h with h' | h'
  · simp at h'
  · exact h'

/-! ## Financial layout lemmas -/

theorem totalOf_nil : totalOf [] = 0 := rfl

theorem totalOf_cons (g : String × List Row) (rest : List (String × List Row)) :
    totalOf (g :: rest) = g.2.length + 4 + totalOf rest := by
  simp [totalOf]

theorem totalOf_pos (g : String × List Row) (rest : List (String × List Row)) :
    4 ≤ totalOf (g :: rest) := by
  rw [totalOf_cons]
  omega

theorem financialBlocks_cursor (rc : Nat) (groups : List (String × List Row))
    (a b : Nat) : (financialBlocks rc groups a b).2 = rc + totalOf groups := by
  induction groups generalizing rc with
  | nil => simp [financialBlocks, totalOf_nil]
  | cons g rest ih =>
      obtain ⟨p, rows⟩ := g
      rw [financialBlocks]
      simp only [ih, totalOf_cons]
      omega

theorem financialRowWrites_row {rc : Nat} {row : Row} {a b : Nat} :
    ∀ w ∈ financialRowWrites rc row a b, w.row = rc := by
  intro w hw
  simp only [financialRowWrites, List.mem_cons, List.not_mem_nil, or_false] at hw
  rcases hw with h | h | h | h | h | h | h | h <;> subst h <;> rfl

theorem entryWrites_row_bounds {rc : Nat} {rows : List Row} {a b : Nat} :
    ∀ w ∈ entryWrites rc rows a b, rc ≤ w.row ∧ w.row < rc + rows.length := by
  induction rows generalizing rc with
  | nil => intro w hw; simp [entryWrites] at hw
  | cons row rest ih =>
      intro w hw
      rw [entryWrites] at hw
      rcases List.mem_append.mp hw with h | h
      · have := financialRowWrites_row w h
        simp [this]
      · have := ih w h
        constructor <;> [omega; (simp only [List.length_cons]; omega)]

theorem financialBlocks_row_bounds {rc : Nat} {groups : List (String × List Row)}
    {a b : Nat} :
    ∀ w ∈ (financialBlocks rc groups a b).1, rc ≤ w.row ∧ w.row + 4 ≤ rc + totalOf groups := by
  induction groups generalizing rc with
  | nil => intro w hw; simp [financialBlocks] at hw
  | cons g rest ih =>
      obtain ⟨p, rows⟩ := g
      intro w hw
      rw [financialBlocks] at hw
      simp only [List.cons_append, List.mem_cons, List.mem_append] at hw
      rcases hw with h | h | h
      · subst h
        rw [totalOf_cons]
        dsimp only
        omega
      · have := entryWrites_row_bounds w h
        rw [totalOf_cons]
        dsimp only at this ⊢
        omega
      · have := ih w h
        rw [totalOf_cons]
        dsimp only at this ⊢
        omega

theorem headerWrites_row {hs : List String} : ∀ w ∈ headerWrites hs, w.row = 1 := by
  intro w hw
  simp only [headerWrites, List.mem_map] at hw
  obtain ⟨p, _, rfl⟩ := hw
  rfl

theorem bottomTotalsWrites_row {tr last : Nat} {rate : Int} {exch : ℚ} {rr er : Nat} :
    ∀ w ∈ bottomTotalsWrites tr last rate exch rr er,
      w.row = rr ∨ w.row = er ∨ w.row = tr ∨ w.row = tr + 1 ∨ w.row = tr + 2 := by
  intro w hw
  simp only [bottomTotalsWrites, List.mem_cons, List.not_mem_nil, or_false] at hw
  rcases hw with h | h | h | h | h | h | h | h | h | h | h | h | h <;> subst h <;> simp

theorem mem_entryAssignRows_bounds {r : Nat} {row : Row} {rc : Nat} {rows : List Row} :
    (r, row) ∈ entryAssignRows rc rows → rc ≤ r ∧ r < rc + rows.length := by
  induction rows generalizing rc with
  | nil => intro h; simp [entryAssignRows] at h
  | cons row0 rest ih =>
      intro h
      rw [entryAssignRows] at h
      rcases List.mem_cons.mp h with h | h
      · have : r = rc := congrArg Prod.fst h
        simp [this]
      · have := ih h
        simp only [List.length_cons]
        omega

theorem mem_entryAssign_bounds {r : Nat} {row : Row} {rc : Nat}
    {groups : List (String × List Row)} :
    (r, row) ∈ entryAssign rc groups → rc + 1 ≤ r ∧ r + 4 ≤ rc + totalOf groups := by
  induction groups generalizing rc with
  | nil => intro h; simp [entryAssign] at h
  | cons g rest ih =>
      obtain ⟨p, rows⟩ := g
      intro h
      rw [entryAssign] at h
      rcases List.mem_append.mp h with h | h
      · have := mem_entryAssignRows_bounds h
        rw [totalOf_cons]
        dsimp only at this ⊢
        omega
      · have := ih h
        rw [totalOf_cons]
        dsimp only at this ⊢
        omega

theorem getCellD_entryWrites_at {r : Nat} {row : Row} {rc : Nat} {rows : List Row}
    (hm : (r, row) ∈ entryAssignRows rc rows) (a b c : Nat) (d : CellVal) :
    getCellD (entryWrites rc rows a b) r c d = getCellD (financialRowWrites r row a b) r c d := by
  induction rows generalizing rc d with
  | nil => simp [entryAssignRows] at hm
  | cons row0 rest ih =>
      rw [entryAssignRows] at hm
      rw [entryWrites, getCellD_append]
      rcases List.mem_cons.mp hm with h | h
      · obtain ⟨hr, hrow⟩ := Prod.mk.injEq .. ▸ h
        injection h with h1 h2
        subst h1
        subst h2
        rw [getCellD_untouched (l := entryWrites (r + 1) rest a b)]
        intro w hw
        have := entryWrites_row_bounds w hw
        exact touches_false_of_row_ne (by omega)
      · have hb := mem_entryAssignRows_bounds h
        rw [getCellD_untouched (l := financialRowWrites rc row0 a b)]
        · exact ih h d
        · intro w hw
          have := financialRowWrites_row w hw
          exact touches_false_of_row_ne (by omega)

theorem getCellD_blocks_at {r : Nat} {row : Row} {rc : Nat}
    {groups : List (String × List Row)}
    (hm : (r, row) ∈ entryAssign rc groups) (a b c : Nat) (d : CellVal) :
    getCellD ((financialBlocks rc groups a b).1) r c d =
      getCellD (financialRowWrites r row a b) r c d := by
  induction groups generalizing rc d with
  | nil => simp [entryAssign] at hm
  | cons g rest ih =>
      obtain ⟨p, rows⟩ := g
      rw [entryAssign] at hm
      rw [financialBlocks]
      simp only [List.cons_append]
      rw [getCellD_cons, getCellD_append]
      rcases List.mem_append.mp hm with h | h
      · have hb := mem_entryAssignRows_bounds h
        rw [getCellD_untouched (l := (financialBlocks (rc + 1 + rows.length + 3) rest a b).1)]
        · rw [show (if touches r c ⟨rc, 1, CellVal.str p⟩ then CellVal.str p else d) = d from
              by rw [touches_false_of_row_ne (by simp; omega)]; simp]
          exact getCellD_entryWrites_at h a b c d
        · intro w hw
          have := financialBlocks_row_bounds w hw
          exact touches_false_of_row_ne (by omega)
      · have hb := mem_entryAssign_bounds h
        have hu : getCellD (entryWrites (rc + 1) rows a b) r c
            (if touches r c ⟨rc, 1, CellVal.str p⟩ then CellVal.str p else d) = d := by
          rw [touches_false_of_row_ne (w := (⟨rc, 1, CellVal.str p⟩ : Write)) (by simp; omega)]
          apply getCellD_untouched
          intro w hw
          have := entryWrites_row_bounds w hw
          exact touches_false_of_row_ne (by omega)
        rw [hu]
        exact ih h d

/-- The cell content of the finished financial sheet at an assigned entry row
equals the content the single row writer put there. -/
theorem getCell_finSheet_entry {sorted : List Row} {rate : Int} {exch : ℚ}
    {r : Nat} {row : Row} (c : Nat)
    (hm : (r, row) ∈ entryAssign 2 (groupByProject sorted)) :
    getCell (finSheet sorted rate exch) r c =
      getCellD (financialRowWrites r row (totalOf (groupByProject sorted) + 2)
        (totalOf (groupByProject sorted) + 3)) r c CellVal.empty := by
  have hb := mem_entryAssign_bounds hm
  rw [finSheet]
  simp only [financialBlocks_cursor]
  rw [getCell, getCellD_append, getCellD_append]
  rw [getCellD_untouched (l := bottomTotalsWrites _ _ _ _ _ _)]
  · rw [getCellD_untouched (l := headerWrites finHeaders)]
    · exact getCellD_blocks_at hm _ _ c CellVal.empty
    · intro w hw
      have := headerWrites_row w hw
      exact touches_false_of_row_ne (by omega)
  · intro w hw
    have := bottomTotalsWrites_row w hw
    exact touches_false_of_row_ne (by omega)

/-! Cell values written by the financial row writer, read back at its row. -/

theorem finRW_col2 (rc : Nat) (row : Row) (a b : Nat) (d : CellVal) :
    getCellD (financialRowWrites rc row a b) rc 2 d =
      CellVal.link (teamworkBase ++ pyStr row.field5) := by
  simp [financialRowWrites, getCellD, touches]

theorem finRW_col4 (rc : Nat) (row : Row) (a b : Nat) (d : CellVal) :
    getCellD (financialRowWrites rc row a b) rc 4 d =
      CellVal.num (floatOrZero row.hours) := by
  simp [financialRowWrites, getCellD, touches]

theorem finRW_col5 (rc : Nat) (row : Row) (a b : Nat) (d : CellVal) :
    getCellD (financialRowWrites rc row a b) rc 5 d = CellVal.fRef a 7 := by
  simp [financialRowWrites, getCellD, touches]

theorem finRW_col6 (rc : Nat) (row : Row) (a b : Nat) (d : CellVal) :
    getCellD (financialRowWrites rc row a b) rc 6 d = CellVal.fRef b 7 := by
  simp [financialRowWrites, getCellD, touches]

theorem finRW_col7 (rc : Nat) (row : Row) (a b : Nat) (d : CellVal) :
    getCellD (financialRowWrites rc row a b) rc 7 d = CellVal.fProd rc := by
  simp [financialRowWrites, getCellD, touches]

theorem finRW_col8 (rc : Nat) (row : Row) (a b : Nat) (d : CellVal) :
    getCellD (financialRowWrites rc row a b) rc 8 d =
      CellVal.str (match parseDate row.date with
                   | some dt => fmtDMY dt
                   | Option.none => "") := by
  simp [financialRowWrites, getCellD, touches]

/-! Cell values of the bottom-totals block. -/

theorem totals_rate_cell (tr last : Nat) (rate : Int) (exch : ℚ) (rr : Nat) (d : CellVal) :
    getCellD (bottomTotalsWrites tr last rate exch rr (rr + 1)) rr 7 d =
      CellVal.num (rate : ℚ) := by
  simp [bottomTotalsWrites, getCellD, touches, (by omega : ¬ rr + 1 = rr)]

theorem totals_exch_cell (tr last : Nat) (rate : Int) (exch : ℚ) (rr er : Nat) (d : CellVal) :
    getCellD (bottomTotalsWrites tr last rate exch rr er) er 7 d = CellVal.num exch := by
  simp [bottomTotalsWrites, getCellD, touches]

theorem totals_sum_hours_cell (tr last : Nat) (rate : Int) (exch : ℚ) (rr er : Nat)
    (d : CellVal) :
    getCellD (bottomTotalsWrites tr last rate exch rr er) tr 4 d = CellVal.fSum 4 2 last := by
  simp [bottomTotalsWrites, getCellD, touches, (by omega : ¬ tr + 1 = tr),
    (by omega : ¬ tr + 2 = tr)]

theorem totals_sum_uah_cell (tr last : Nat) (rate : Int) (exch : ℚ) (rr er : Nat)
    (d : CellVal) :
    getCellD (bottomTotalsWrites tr last rate exch rr er) (tr + 1) 4 d =
      CellVal.fSum 7 2 last := by
  simp [bottomTotalsWrites, getCellD, touches, (by omega : ¬ tr = tr + 1),
    (by omega : ¬ tr + 2 = tr + 1)]

theorem totals_label_cell (tr last : Nat) (rate : Int) (exch : ℚ) (rr er : Nat)
    (d : CellVal) :
    getCellD (bottomTotalsWrites tr last rate exch rr er) tr 2 d =
      CellVal.str "ИТОГО часов" := by
  simp [bottomTotalsWrites, getCellD, touches, (by omega : ¬ tr + 1 = tr),
    (by omega : ¬ tr + 2 = tr)]

theorem totals_usd_cell (tr last : Nat) (rate : Int) (exch : ℚ) (rr er : Nat)
    (d : CellVal) :
    getCellD (bottomTotalsWrites tr last rate exch rr er) (tr + 2) 4 d =
      CellVal.fSumDiv 7 2 last exch := by
  simp [bottomTotalsWrites, getCellD, touches, (by omega : ¬ tr = tr + 2),
    (by omega : ¬ tr + 1 = tr + 2)]

/-- Reading the finished financial sheet at any row of the totals/inputs
region reduces to reading the bottom-totals writes alone. -/
theorem getCell_finSheet_totals {sorted : List Row} {rate : Int} {exch : ℚ}
    (r c : Nat) (hr : totalOf (groupByProject sorted) + 2 ≤ r) :
    getCell (finSheet sorted rate exch) r c =
      getCellD (bottomTotalsWrites (2 + totalOf (groupByProject sorted) + 1)
        (2 + totalOf (groupByProject sorted) - 4) rate exch
        (totalOf (groupByProject sorted) + 2) (totalOf (groupByProject sorted) + 3))
        r c CellVal.empty := by
  rw [finSheet]
  simp only [financialBlocks_cursor]
  rw [getCell, getCellD_append, getCellD_append]
  rw [getCellD_untouched (l := headerWrites finHeaders)]
  · rw [getCellD_untouched (l := (financialBlocks 2 (groupByProject sorted) _ _).1)]
    intro w hw
    have := financialBlocks_row_bounds w hw
    exact touches_false_of_row_ne (by omega)
  · intro w hw
    have := headerWrites_row w hw
    exact touches_false_of_row_ne (by omega)

theorem finSheet_rate_input (sorted : List Row) (rate : Int) (exch : ℚ) :
    getCell (finSheet sorted rate exch) (totalOf (groupByProject sorted) + 2) 7 =
      CellVal.num (rate : ℚ) := by
  rw [getCell_finSheet_totals _ _ (by omega)]
  exact totals_rate_cell _ _ _ _ _ _

theorem finSheet_exch_input (sorted : List Row) (rate : Int) (exch : ℚ) :
    getCell (finSheet sorted rate exch) (totalOf (groupByProject sorted) + 3) 7 =
      CellVal.num exch := by
  rw [getCell_finSheet_totals _ _ (by omega)]
  exact totals_exch_cell _ _ _ _ _ _ _

theorem finSheet_sum_hours (sorted : List Row) (rate : Int) (exch : ℚ) :
    getCell (finSheet sorted rate exch) (totalOf (groupByProject sorted) + 3) 4 =
      CellVal.fSum 4 2 (2 + totalOf (groupByProject sorted) - 4) := by
  rw [getCell_finSheet_totals _ _ (by omega)]
  have h3 : 2 + totalOf (groupByProject sorted) + 1 = totalOf (groupByProject sorted) + 3 := by
    omega
  rw [← h3]
  exact totals_sum_hours_cell _ _ _ _ _ _ _

theorem finSheet_sum_uah (sorted : List Row) (rate : Int) (exch : ℚ) :
    getCell (finSheet sorted rate exch) (totalOf (groupByProject sorted) + 4) 4 =
      CellVal.fSum 7 2 (2 + totalOf (groupByProject sorted) - 4) := by
  rw [getCell_finSheet_totals _ _ (by omega)]
  have h3 : totalOf (groupByProject sorted) + 4 =
      (2 + totalOf (groupByProject sorted) + 1) + 1 := by omega
  rw [h3]
  exact totals_sum_uah_cell _ _ _ _ _ _ _

theorem finSheet_usd (sorted : List Row) (rate : Int) (exch : ℚ) :
    getCell (finSheet sorted rate exch) (totalOf (groupByProject sorted) + 5) 4 =
      CellVal.fSumDiv 7 2 (2 + totalOf (groupByProject sorted) - 4) exch := by
  rw [getCell_finSheet_totals _ _ (by omega)]
  have h3 : totalOf (groupByProject sorted) + 5 =
      (2 + totalOf (groupByProject sorted) + 1) + 2 := by omega
  rw [h3]
  exact totals_usd_cell _ _ _ _ _ _ _

theorem finSheet_totals_label (sorted : List Row) (rate : Int) (exch : ℚ) :
    getCell (finSheet sorted rate exch) (totalOf (groupByProject sorted) + 3) 2 =
      CellVal.str "ИТОГО часов" := by
  rw [getCell_finSheet_totals _ _ (by omega)]
  have h3 : 2 + totalOf (groupByProject sorted) + 1 = totalOf (groupByProject sorted) + 3 := by
    omega
  rw [← h3]
  exact totals_label_cell _ _ _ _ _ _ _

/-! ## Success-path extraction lemmas -/

theorem generateFinancial_ok {data : List Row} {rate : Int} {exch : ℚ} {out : FinOut}
    (h : generateFinancialReport data rate exch = Except.ok out) :
    sortOK data = true ∧ ∃ first rest d0, pySortByDate data = first :: rest ∧
      first.date = Val.vdt d0 ∧
      out = ⟨finSheet (pySortByDate data) rate exch, reportFilename "financial" d0⟩ := by
  rw [generateFinancialReport, sortRowsChecked] at h
  by_cases hs : sortOK data
  · rw [if_pos hs] at h
    refine ⟨hs, ?_⟩
    cases hl : pySortByDate data with
    | nil => rw [hl] at h; exact absurd h (by simp)
    | cons first rest =>
        rw [hl] at h
        dsimp only at h
        cases hd : first.date with
        | vdt d0 =>
            rw [hd] at h
            simp only [getDT] at h
            refine ⟨first, rest, d0, rfl, hd, ?_⟩
            exact (Except.ok.injEq .. ▸ h).symm
        | vnone => rw [hd] at h; exact absurd h (by simp [getDT])
        | vstr s => rw [hd] at h; exact absurd h (by simp [getDT])
        | vnum q => rw [hd] at h; exact absurd h (by simp [getDT])
  · rw [if_neg hs] at h
    exact absurd h (by simp)

theorem generateProject_split_ok {data : List Row} {out : ProjOut}
    (h : generateProjectReport data ReportGroupingType.SPLIT_HALF = Except.ok out) :
    sortOK data = true ∧ ∃ first rest d0, pySortByDate data = first :: rest ∧
      first.date = Val.vdt d0 ∧
      out = ⟨headerWrites projHeaders ++
              (splitBody 2 (splitGroups (pySortByDate data))
                (buildPeriodTitles d0).1 (buildPeriodTitles d0).2).1,
            reportFilename "split_half_project" d0⟩ := by
  rw [generateProjectReport, sortRowsChecked] at h
  by_cases hs : sortOK data
  · rw [if_pos hs] at h
    refine ⟨hs, ?_⟩
    cases hl : pySortByDate data with
    | nil => rw [hl] at h; exact absurd h (by simp)
    | cons first rest =>
        rw [hl] at h
        dsimp only at h
        cases hd : first.date with
        | vdt d0 =>
            rw [hd] at h
            simp only [getDT] at h
            refine ⟨first, rest, d0, rfl, hd, ?_⟩
            exact (Except.ok.injEq .. ▸ h).symm
        | vnone => rw [hd] at h; exact absurd h (by simp [getDT])
        | vstr s => rw [hd] at h; exact absurd h (by simp [getDT])
        | vnum q => rw [hd] at h; exact absurd h (by simp [getDT])
  · rw [if_neg hs] at h
    exact absurd h (by simp)

theorem generateProject_full_ok {data : List Row} {out : ProjOut}
    (h : generateProjectReport data ReportGroupingType.FULL_MONTH = Except.ok out) :
    sortOK data = true ∧ ∃ first rest d0, pySortByDate data = first :: rest ∧
      first.date = Val.vdt d0 ∧
      out = ⟨headerWrites projHeaders ++
              (projBlocks 2 (groupByProject (pySortByDate data))).1,
            reportFilename "full_month_project" d0⟩ := by
  rw [generateProjectReport, sortRowsChecked] at h
  by_cases hs : sortOK data
  · rw [if_pos hs] at h
    refine ⟨hs, ?_⟩
    cases hl : pySortByDate data with
    | nil => rw [hl] at h; exact absurd h (by simp)
    | cons first rest =>
        rw [hl] at h
        dsimp only at h
        cases hd : first.date with
        | vdt d0 =>
            rw [hd] at h
            simp only [getDT] at h
            refine ⟨first, rest, d0, rfl, hd, ?_⟩
            exact (Except.ok.injEq .. ▸ h).symm
        | vnone => rw [hd] at h; exact absurd h (by simp [getDT])
        | vstr s => rw [hd] at h; exact absurd h (by simp [getDT])
        | vnum q => rw [hd] at h; exact absurd h (by simp [getDT])
  · rw [if_neg hs] at h
    exact absurd h (by simp)

/-! ## Column-4 sum machinery (for the totals `SUM` range) -/

theorem rawHoursTotal_nil : rawHoursTotal [] = 0 := rfl

theorem rawHoursTotal_cons (r : Row) (l : List Row) :
    rawHoursTotal (r :: l) = floatOrZero r.hours + rawHoursTotal l := by
  simp [rawHoursTotal]

theorem rawHoursTotal_append (a b : List Row) :
    rawHoursTotal (a ++ b) = rawHoursTotal a + rawHoursTotal b := by
  simp [rawHoursTotal]

theorem rawHoursTotal_insertByDate (x : Row) (l : List Row) :
    rawHoursTotal (insertByDate x l) = floatOrZero x.hours + rawHoursTotal l := by
  induction l with
  | nil => simp [insertByDate, rawHoursTotal]
  | cons y ys ih =>
      rw [insertByDate]
      by_cases h : keyLt x.date y.date
      · rw [if_pos h, rawHoursTotal_cons]
      · rw [if_neg h, rawHoursTotal_cons, ih, rawHoursTotal_cons]
        ring

theorem rawHoursTotal_pySortByDate (l : List Row) :
    rawHoursTotal (pySortByDate l) = rawHoursTotal l := by
  have key : ∀ (l acc : List Row),
      rawHoursTotal (l.foldl (fun acc y => insertByDate y acc) acc) =
        rawHoursTotal acc + rawHoursTotal l := by
    intro l
    induction l with
    | nil => intro acc; simp [rawHoursTotal]
    | cons y ys ih =>
        intro acc
        rw [List.foldl_cons, ih, rawHoursTotal_insertByDate, rawHoursTotal_cons]
        ring
  rw [pySortByDate, key, rawHoursTotal_nil, zero_add]

theorem rawHoursTotal_insertGrouped (k : String) (r : Row)
    (acc : List (String × List Row)) :
    rawHoursTotal (flatGroups (insertGrouped k r acc)) =
      rawHoursTotal (flatGroups acc) + floatOrZero r.hours := by
  induction acc with
  | nil =>
      simp [insertGrouped, flatGroups, rawHoursTotal]
  | cons g rest ih =>
      obtain ⟨k', rs⟩ := g
      rw [insertGrouped]
      by_cases h : k' = k
      · rw [if_pos h, flatGroups_cons, flatGroups_cons]
        dsimp only
        rw [rawHoursTotal_append, rawHoursTotal_append, rawHoursTotal_append,
          rawHoursTotal_cons, rawHoursTotal_nil]
        ring
      · rw [if_neg h, flatGroups_cons, flatGroups_cons, rawHoursTotal_append,
          rawHoursTotal_append, ih]
        ring

theorem rawHoursTotal_groupByProject (l : List Row) :
    rawHoursTotal (flatGroups (groupByProject l)) = rawHoursTotal l := by
  have key : ∀ (l : List Row) (acc : List (String × List Row)),
      rawHoursTotal (flatGroups (l.foldl (fun acc r => insertGrouped r.project r acc) acc)) =
        rawHoursTotal (flatGroups acc) + rawHoursTotal l := by
    intro l
    induction l with
    | nil => intro acc; simp [rawHoursTotal]
    | cons y ys ih =>
        intro acc
        rw [List.foldl_cons, ih, rawHoursTotal_insertGrouped, rawHoursTotal_cons]
        ring
  rw [groupByProject, key]
  simp [flatGroups, rawHoursTotal]

/-- A nonempty dataset always produces at least one project group. -/
theorem groupByProject_ne_nil (x : Row) (l : List Row) (h : x ∈ l) :
    groupByProject l ≠ [] := by
  intro hnil
  have := rawHoursTotal_groupByProject l
  have hmem : x ∈ flatGroups (groupByProject l) := by
    have key : ∀ (l : List Row) (acc : List (String × List Row)),
        x ∈ flatGroups acc ∨ x ∈ l →
        x ∈ flatGroups (l.foldl (fun acc r => insertGrouped r.project r acc) acc) := by
      intro l
      induction l with
      | nil => intro acc h'; rcases h' with h' | h'
               · exact h'
               · simp at h'
      | cons y ys ih =>
          intro acc h'
          rw [List.foldl_cons]
          rcases h' with h' | h'
          · exact ih _ (Or.inl ((mem_flat_insertGrouped x y.project y acc).mpr (Or.inl h')))
          · rcases List.mem_cons.mp h' with h' | h'
            · exact ih _ (Or.inl (h' ▸ self_mem_flat_insertGrouped y.project y acc))
            · exact ih _ (Or.inr h')
    exact key l [] (Or.inr h)
  rw [hnil] at hmem
  simp [flatGroups] at hmem

theorem entryWrites_col4 {rc : Nat} {rows : List Row} {a b : Nat} :
    ∀ w ∈ entryWrites rc rows a b, w.col = 4 → ∃ q, w.val = CellVal.num q := by
  induction rows generalizing rc with
  | nil => intro w hw; simp [entryWrites] at hw
  | cons row rest ih =>
      intro w hw hc
      rw [entryWrites] at hw
      rcases List.mem_append.mp hw with h | h
      · simp only [financialRowWrites, List.mem_cons, List.not_mem_nil, or_false] at h
        rcases h with h | h | h | h | h | h | h | h <;> subst h <;>
          first | (exact ⟨_, rfl⟩) | (exact absurd hc (by simp))
      · exact ih w h hc

theorem financialBlocks_col4 {rc : Nat} {groups : List (String × List Row)} {a b : Nat} :
    ∀ w ∈ (financialBlocks rc groups a b).1, w.col = 4 → ∃ q, w.val = CellVal.num q := by
  induction groups generalizing rc with
  | nil => intro w hw; simp [financialBlocks] at hw
  | cons g rest ih =>
      obtain ⟨p, rows⟩ := g
      intro w hw hc
      rw [financialBlocks] at hw
      simp only [List.cons_append, List.mem_cons, List.mem_append] at hw
      rcases hw with h | h | h
      · subst h; exact absurd hc (by simp)
      · exact entryWrites_col4 w h hc
      · exact ih w h hc

theorem getCellD_col_shape {l : Sheet} {r c : Nat}
    (hl : ∀ w ∈ l, w.col = c → ∃ q, w.val = CellVal.num q) {d : CellVal}
    (hd : (∃ q, d = CellVal.num q) ∨ d = CellVal.empty) :
    (∃ q, getCellD l r c d = CellVal.num q) ∨ getCellD l r c d = CellVal.empty := by
  induction l generalizing d with
  | nil => exact hd
  | cons w ws ih =>
      rw [getCellD_cons]
      refine ih (fun x hx => hl x (List.mem_cons_of_mem w hx)) ?_
      by_cases ht : touches r c w
      · rw [if_pos ht]
        have hc : w.col = c := by
          simp [touches] at ht
          exact ht.2
        rcases hl w (List.mem_cons_self w ws) hc with ⟨q, hq⟩
        exact Or.inl ⟨q, hq⟩
      · rw [if_neg ht]
        exact hd

theorem sum_entryWrites (rows : List Row) (rc a b : Nat) :
    ((List.range' rc rows.length).map
      (fun r => litNum (getCellD (entryWrites rc rows a b) r 4 CellVal.empty))).sum =
      rawHoursTotal rows := by
  induction rows generalizing rc with
  | nil => simp [rawHoursTotal]
  | cons row rest ih =>
      rw [List.length_cons, List.range'_succ, List.map_cons, List.sum_cons]
      have hterm : litNum (getCellD (entryWrites rc (row :: rest) a b) rc 4 CellVal.empty) =
          floatOrZero row.hours := by
        rw [entryWrites, getCellD_append]
        rw [getCellD_untouched (l := entryWrites (rc + 1) rest a b)
          (fun w hw => touches_false_of_row_ne
            (by have := entryWrites_row_bounds w hw; omega))]
        rw [finRW_col4]
        rfl
      have hrest : ∀ r ∈ List.range' (rc + 1) rest.length,
          litNum (getCellD (entryWrites rc (row :: rest) a b) r 4 CellVal.empty) =
          litNum (getCellD (entryWrites (rc + 1) rest a b) r 4 CellVal.empty) := by
        intro r hr
        obtain ⟨i, hi, rfl⟩ := List.mem_range'.mp hr
        rw [entryWrites, getCellD_append]
        rw [getCellD_untouched (l := financialRowWrites rc row a b)
          (fun w hw => touches_false_of_row_ne
            (by have := financialRowWrites_row w hw; omega))]
      rw [List.map_congr_left hrest, hterm, ih, rawHoursTotal_cons]

theorem sum_head_block (p : String) (rows : List Row) (rc a b : Nat) :
    ((List.range' rc (rows.length + 1)).map
      (fun r => litNum (getCellD
        ((⟨rc, 1, CellVal.str p⟩ : Write) :: entryWrites (rc + 1) rows a b)
        r 4 CellVal.empty))).sum = rawHoursTotal rows := by
  rw [List.range'_succ, List.map_cons, List.sum_cons]
  have hterm : litNum (getCellD
      ((⟨rc, 1, CellVal.str p⟩ : Write) :: entryWrites (rc + 1) rows a b)
      rc 4 CellVal.empty) = 0 := by
    rw [getCellD_cons, touches_false_of_col_ne (by simp)]
    rw [getCellD_untouched (fun w hw => touches_false_of_row_ne
      (by have := entryWrites_row_bounds w hw; omega))]
    rfl
  have hrest : ∀ r ∈ List.range' (rc + 1) rows.length,
      litNum (getCellD ((⟨rc, 1, CellVal.str p⟩ : Write) :: entryWrites (rc + 1) rows a b)
        r 4 CellVal.empty) =
      litNum (getCellD (entryWrites (rc + 1) rows a b) r 4 CellVal.empty) := by
    intro r hr
    obtain ⟨i, hi, rfl⟩ := List.mem_range'.mp hr
    rw [getCellD_cons, touches_false_of_row_ne (by simp; omega)]
    rfl
  rw [List.map_congr_left hrest, hterm, sum_entryWrites, zero_add]

theorem sum_financialBlocks (groups : List (String × List Row)) (rc a b : Nat)
    (hne : groups ≠ []) :
    ((List.range' rc (totalOf groups - 3)).map
      (fun r => litNum (getCellD ((financialBlocks rc groups a b).1) r 4 CellVal.empty))).sum =
      rawHoursTotal (flatGroups groups) := by
  induction groups generalizing rc with
  | nil => exact absurd rfl hne
  | cons g rest ih =>
      obtain ⟨p, rows⟩ := g
      by_cases hrest : rest = []
      · subst hrest
        rw [financialBlocks]
        dsimp only
        rw [totalOf_cons, totalOf_nil]
        have hlen : rows.length + 4 + 0 - 3 = rows.length + 1 := by omega
        rw [hlen]
        have hb : (financialBlocks (rc + 1 + rows.length + 3) ([] : List (String × List Row)) a b).1
            = [] := rfl
        rw [hb, List.append_nil]
        rw [sum_head_block]
        rw [flatGroups_cons]
        simp [flatGroups, rawHoursTotal]
      · rw [financialBlocks]
        dsimp only
        have h4 : 4 ≤ totalOf rest := by
          cases rest with
          | nil => exact absurd rfl hrest
          | cons g' rest' => exact totalOf_pos g' rest'
        rw [totalOf_cons]
        have hsplit : rows.length + 4 + totalOf rest - 3 =
            (rows.length + 4) + (totalOf rest - 3) := by omega
        rw [hsplit]
        have hr : List.range' rc (rows.length + 4 + (totalOf rest - 3)) =
            List.range' rc (rows.length + 4) ++
              List.range' (rc + (rows.length + 4)) (totalOf rest - 3) := by
          have harr := List.range'_append rc (rows.length + 4) (totalOf rest - 3) 1
          simp only [one_mul] at harr
          rw [harr, Nat.add_comm (rows.length + 4) (totalOf rest - 3)]
        rw [hr, List.map_append, List.sum_append]
        -- first segment: the head block plus its three blank rows
        have hfirst : ((List.range' rc (rows.length + 4)).map
            (fun r => litNum (getCellD
              (((⟨rc, 1, CellVal.str p⟩ : Write) :: entryWrites (rc + 1) rows a b) ++
                (financialBlocks (rc + 1 + rows.length + 3) rest a b).1)
              r 4 CellVal.empty))).sum = rawHoursTotal rows := by
          have hseg : ∀ r ∈ List.range' rc (rows.length + 4),
              litNum (getCellD
                (((⟨rc, 1, CellVal.str p⟩ : Write) :: entryWrites (rc + 1) rows a b) ++
                  (financialBlocks (rc + 1 + rows.length + 3) rest a b).1)
                r 4 CellVal.empty) =
              litNum (getCellD
                ((⟨rc, 1, CellVal.str p⟩ : Write) :: entryWrites (rc + 1) rows a b)
                r 4 CellVal.empty) := by
            intro r hr'
            obtain ⟨i, hi, rfl⟩ := List.mem_range'.mp hr'
            rw [getCellD_append]
            rw [getCellD_untouched (l := (financialBlocks (rc + 1 + rows.length + 3) rest a b).1)
              (fun w hw => touches_false_of_row_ne
                (by have := financialBlocks_row_bounds w hw; omega))]
          rw [List.map_congr_left hseg]
          have hsplit2 : rows.length + 4 = (rows.length + 1) + 3 := by omega
          rw [hsplit2]
          have hr2 : List.range' rc (rows.length + 1 + 3) =
              List.range' rc (rows.length + 1) ++
                List.range' (rc + (rows.length + 1)) 3 := by
            have harr := List.range'_append rc (rows.length + 1) 3 1
            simp only [one_mul] at harr
            rw [harr, Nat.add_comm (rows.length + 1) 3]
          rw [hr2, List.map_append, List.sum_append, sum_head_block]
          have hblank : ∀ r ∈ List.range' (rc + (rows.length + 1)) 3,
              litNum (getCellD
                ((⟨rc, 1, CellVal.str p⟩ : Write) :: entryWrites (rc + 1) rows a b)
                r 4 CellVal.empty) = 0 := by
            intro r hr'
            obtain ⟨i, hi, rfl⟩ := List.mem_range'.mp hr'
            rw [getCellD_cons, touches_false_of_row_ne (by simp; omega)]
            rw [getCellD_untouched (fun w hw => touches_false_of_row_ne
              (by have := entryWrites_row_bounds w hw; omega))]
            rfl
          rw [List.map_congr_left hblank]
          simp
      -- second segment: the remaining blocks
        have hsecond : ((List.range' (rc + (rows.length + 4)) (totalOf rest - 3)).map
            (fun r => litNum (getCellD
              (((⟨rc, 1, CellVal.str p⟩ : Write) :: entryWrites (rc + 1) rows a b) ++
                (financialBlocks (rc + 1 + rows.length + 3) rest a b).1)
              r 4 CellVal.empty))).sum = rawHoursTotal (flatGroups rest) := by
          have hseg : ∀ r ∈ List.range' (rc + (rows.length + 4)) (totalOf rest - 3),
              litNum (getCellD
                (((⟨rc, 1, CellVal.str p⟩ : Write) :: entryWrites (rc + 1) rows a b) ++
                  (financialBlocks (rc + 1 + rows.length + 3) rest a b).1)
                r 4 CellVal.empty) =
              litNum (getCellD ((financialBlocks (rc + 1 + rows.length + 3) rest a b).1)
                r 4 CellVal.empty) := by
            intro r hr'
            obtain ⟨i, hi, rfl⟩ := List.mem_range'.mp hr'
            simp only [one_mul]
            rw [getCellD_append]
            have hinner : getCellD
                ((⟨rc, 1, CellVal.str p⟩ : Write) :: entryWrites (rc + 1) rows a b)
                (rc + (rows.length + 4) + i) 4 CellVal.empty = CellVal.empty := by
              rw [getCellD_cons, touches_false_of_row_ne (by simp; omega)]
              exact getCellD_untouched (fun w hw => touches_false_of_row_ne
                (by have := entryWrites_row_bounds w hw; omega)) _
            rw [hinner]
          rw [List.map_congr_left hseg]
          have : rc + (rows.length + 4) = rc + 1 + rows.length + 3 := by omega
          rw [this, ih (rc + 1 + rows.length + 3) hrest]
        rw [hfirst, hsecond, flatGroups_cons, rawHoursTotal_append]

/-- Reading column 4 of the finished financial sheet anywhere in the data
region reduces to reading the project blocks alone. -/
theorem getCell_finSheet_range {sorted : List Row} {rate : Int} {exch : ℚ} {r : Nat}
    (hr2 : 2 ≤ r) (hrl : r + 4 ≤ 2 + totalOf (groupByProject sorted)) :
    getCell (finSheet sorted rate exch) r 4 =
      getCellD ((financialBlocks 2 (groupByProject sorted)
        (totalOf (groupByProject sorted) + 2) (totalOf (groupByProject sorted) + 3)).1)
        r 4 CellVal.empty := by
  rw [finSheet]
  simp only [financialBlocks_cursor]
  rw [getCell, getCellD_append, getCellD_append]
  rw [getCellD_untouched (l := bottomTotalsWrites _ _ _ _ _ _)]
  · rw [getCellD_untouched (l := headerWrites finHeaders)]
    intro w hw
    have := headerWrites_row w hw
    exact touches_false_of_row_ne (by omega)
  · intro w hw
    have := bottomTotalsWrites_row w hw
    exact touches_false_of_row_ne (by omega)

/-! ## Spreadsheet evaluation unfolding -/

theorem evalCell_num (ws : Sheet) (n : Nat) (q : ℚ) :
    evalCell ws (n + 1) (CellVal.num q) = q := rfl

theorem evalCell_fRef (ws : Sheet) (n : Nat) (row col : Nat) :
    evalCell ws (n + 1) (CellVal.fRef row col) = evalCell ws n (getCell ws row col) := rfl

theorem evalCell_fProd (ws : Sheet) (n : Nat) (r : Nat) :
    evalCell ws (n + 1) (CellVal.fProd r) =
      evalCell ws n (getCell ws r 4) * evalCell ws n (getCell ws r 5) *
        evalCell ws n (getCell ws r 6) := rfl

theorem evalCell_fSum (ws : Sheet) (n : Nat) (col lo hi : Nat) :
    evalCell ws (n + 1) (CellVal.fSum col lo hi) =
      ((List.range' lo (hi + 1 - lo)).map (fun r => evalCell ws n (getCell ws r col))).sum := rfl

theorem evalCell_litNum (ws : Sheet) {cv : CellVal}
    (h : (∃ q, cv = CellVal.num q) ∨ cv = CellVal.empty) :
    evalCell ws 1 cv = litNum cv := by
  rcases h with ⟨q, rfl⟩ | rfl <;> rfl

/-! ## Hyperlink characterization -/

theorem cellOfVal_ne_link (v : Val) (u : String) : cellOfVal v ≠ CellVal.link u := by
  cases v <;> simp [cellOfVal]

theorem financialRowWrites_links {rc : Nat} {row : Row} {a b : Nat} {w : Write}
    (hw : w ∈ financialRowWrites rc row a b) {u : String}
    (hl : w.val = CellVal.link u) : u = teamworkBase ++ pyStr row.field5 := by
  simp only [financialRowWrites, List.mem_cons, List.not_mem_nil, or_false] at hw
  rcases hw with h | h | h | h | h | h | h | h <;> subst h <;>
    first
      | (exact absurd hl (cellOfVal_ne_link _ _))
      | (simp at hl; exact hl.symm)
      | simp at hl

theorem entryWrites_links {rc : Nat} {rows : List Row} {a b : Nat} {w : Write}
    (hw : w ∈ entryWrites rc rows a b) {u : String} (hl : w.val = CellVal.link u) :
    ∃ row ∈ rows, u = teamworkBase ++ pyStr row.field5 := by
  induction rows generalizing rc with
  | nil => simp [entryWrites] at hw
  | cons row rest ih =>
      rw [entryWrites] at hw
      rcases List.mem_append.mp hw with h | h
      · exact ⟨row, List.mem_cons_self row rest, financialRowWrites_links h hl⟩
      · obtain ⟨r', hr', hu⟩ := ih h
        exact ⟨r', List.mem_cons_of_mem row hr', hu⟩

theorem financialBlocks_links {rc : Nat} {groups : List (String × List Row)} {a b : Nat}
    {w : Write} (hw : w ∈ (financialBlocks rc groups a b).1) {u : String}
    (hl : w.val = CellVal.link u) :
    ∃ row ∈ flatGroups groups, u = teamworkBase ++ pyStr row.field5 := by
  induction groups generalizing rc with
  | nil => simp [financialBlocks] at hw
  | cons g rest ih =>
      obtain ⟨p, rows⟩ := g
      rw [financialBlocks] at hw
      simp only [List.cons_append, List.mem_cons, List.mem_append] at hw
      rcases hw with h | h | h
      · subst h; simp at hl
      · obtain ⟨r', hr', hu⟩ := entryWrites_links h hl
        refine ⟨r', ?_, hu⟩
        rw [flatGroups_cons]
        exact List.mem_append.mpr (Or.inl hr')
      · obtain ⟨r', hr', hu⟩ := ih h
        refine ⟨r', ?_, hu⟩
        rw [flatGroups_cons]
        exact List.mem_append.mpr (Or.inr hr')

theorem headerWrites_no_links {hs : List String} {w : Write} (hw : w ∈ headerWrites hs)
    {u : String} : w.val ≠ CellVal.link u := by
  simp only [headerWrites, List.mem_map] at hw
  obtain ⟨p, _, rfl⟩ := hw
  simp

theorem bottomTotals_no_links {tr last : Nat} {rate : Int} {exch : ℚ} {rr er : Nat}
    {w : Write} (hw : w ∈ bottomTotalsWrites tr last rate exch rr er) {u : String} :
    w.val ≠ CellVal.link u := by
  simp only [bottomTotalsWrites, List.mem_cons, List.not_mem_nil, or_false] at hw
  rcases hw with h | h | h | h | h | h | h | h | h | h | h | h | h <;> subst h <;> simp

theorem taskRowWrites_links {rc : Nat} {tid : String} {t : TaskAgg} {w : Write}
    (hw : w ∈ taskRowWrites rc tid t) {u : String} (hl : w.val = CellVal.link u) :
    u = teamworkBase ++ tid := by
  simp only [taskRowWrites, List.mem_cons, List.not_mem_nil, or_false] at hw
  rcases hw with h | h | h | h <;> subst h
  · exact absurd hl (cellOfVal_ne_link _ _)
  · simp at hl; exact hl.symm
  · by_cases he : estTruthy t.estimated = true <;> simp [he] at hl
  · simp at hl

theorem taskRowsWrites_links {rc : Nat} {m : List (String × TaskAgg)} {w : Write}
    (hw : w ∈ taskRowsWrites rc m) {u : String} (hl : w.val = CellVal.link u) :
    ∃ tid ∈ m.map (fun p => p.1), u = teamworkBase ++ tid := by
  induction m generalizing rc with
  | nil => simp [taskRowsWrites] at hw
  | cons p rest ih =>
      obtain ⟨tid, t⟩ := p
      rw [taskRowsWrites] at hw
      rcases List.mem_append.mp hw with h | h
      · exact ⟨tid, by simp, taskRowWrites_links h hl⟩
      · obtain ⟨tid', ht', hu⟩ := ih h
        exact ⟨tid', by simp; right; simpa using ht', hu⟩

theorem projBlocks_links {rc : Nat} {groups : List (String × List Row)} {w : Write}
    (hw : w ∈ (projBlocks rc groups).1) {u : String} (hl : w.val = CellVal.link u) :
    ∃ rows, (∃ p, (p, rows) ∈ groups) ∧
      ∃ tid ∈ (taskFold rows).map (fun q => q.1), u = teamworkBase ++ tid := by
  induction groups generalizing rc with
  | nil => simp [projBlocks] at hw
  | cons g rest ih =>
      obtain ⟨p, rows⟩ := g
      rw [projBlocks] at hw
      simp only [List.cons_append, List.mem_cons, List.mem_append] at hw
      rcases hw with h | h | h
      · subst h; simp at hl
      · exact ⟨rows, ⟨p, List.mem_cons_self _ _⟩, taskRowsWrites_links h hl⟩
      · obtain ⟨rows', ⟨p', hp'⟩, htid⟩ := ih h
        exact ⟨rows', ⟨p', List.mem_cons_of_mem _ hp'⟩, htid⟩

theorem splitBody_links {rc : Nat} {pg : PeriodGroups} {t1 t2 : String} {w : Write}
    (hw : w ∈ (splitBody rc pg t1 t2).1) {u : String} (hl : w.val = CellVal.link u) :
    ∃ rows, (∃ p, (p, rows) ∈ pg.p1 ∨ (p, rows) ∈ pg.p2) ∧
      ∃ tid ∈ (taskFold rows).map (fun q => q.1), u = teamworkBase ++ tid := by
  rw [splitBody] at hw
  simp only [List.cons_append, List.mem_cons, List.mem_append] at hw
  rcases hw with h | h | h | h
  · subst h; simp at hl
  · obtain ⟨rows, ⟨p, hp⟩, htid⟩ := projBlocks_links h hl
    exact ⟨rows, ⟨p, Or.inl hp⟩, htid⟩
  · subst h; simp at hl
  · obtain ⟨rows, ⟨p, hp⟩, htid⟩ := projBlocks_links h hl
    exact ⟨rows, ⟨p, Or.inr hp⟩, htid⟩

/-- Rows of any group of a project grouping belong to the flattened grouping. -/
theorem mem_flatGroups_of_group {p : String} {rows : List Row}
    {groups : List (String × List Row)} (hg : (p, rows) ∈ groups) {x : Row}
    (hx : x ∈ rows) : x ∈ flatGroups groups := by
  induction groups with
  | nil => simp at hg
  | cons g rest ih =>
      rw [flatGroups_cons]
      rcases List.mem_cons.mp hg with h | h
      · subst h
        exact List.mem_append.mpr (Or.inl hx)
      · exact List.mem_append.mpr (Or.inr (ih h))

/-! ## Shared concrete sample data -/

/-- Financial-shaped rows of the spec's Scenario A (`field5` = task id). -/
def rowA : Row :=
  ⟨Val.vdt ⟨2024, 2, 3⟩, "Alpha", Val.vstr "d1", Val.vstr "t1", Val.vnum (5 / 2),
    Val.vstr "T1", Val.vnone⟩

def rowB : Row :=
  ⟨Val.vdt ⟨2024, 2, 20⟩, "Alpha", Val.vstr "d2", Val.vstr "t2", Val.vnum 1,
    Val.vstr "T2", Val.vnone⟩

def sampleFin : List Row := [rowA, rowB]

/-- Project-shaped rows (`field5` = estimate, `field6` = task id): the first
carries a null estimate, the second the only non-null estimate 5. -/
def rowP1 : Row :=
  ⟨Val.vdt ⟨2024, 2, 3⟩, "Alpha", Val.vstr "d1", Val.vstr "t1", Val.vnum (5 / 2),
    Val.vnone, Val.vstr "T1"⟩

def rowP2 : Row :=
  ⟨Val.vdt ⟨2024, 2, 20⟩, "Alpha", Val.vstr "d2", Val.vstr "t2", Val.vnum 1,
    Val.vnum 5, Val.vstr "T1"⟩

def sampleProj : List Row := [rowP1, rowP2]

/-- A single project-shaped row whose estimate slot (5) and task-id slot (6)
hold visibly different values. -/
def rowC2 : Row :=
  ⟨Val.vdt ⟨2024, 2, 3⟩, "Alpha", Val.vstr "d", Val.vstr "t1", Val.vnum (5 / 2),
    Val.vnum 5, Val.vstr "123"⟩

/-- A row whose raw date is an unparsable string. -/
def badDateRow : Row :=
  ⟨Val.vstr "zzz", "Alpha", Val.vstr "d", Val.vstr "t", Val.vnum 1, Val.vstr "T1",
    Val.vnone⟩

def sampleFinOut : FinOut :=
  match generateFinancialReport sampleFin 50 41 with
  | Except.ok o => o
  | Except.error _ => ⟨[], ""⟩

def sampleFin1Out : FinOut :=
  match generateFinancialReport [rowA] 50 41 with
  | Except.ok o => o
  | Except.error _ => ⟨[], ""⟩

def sampleSplitOut : ProjOut :=
  match generateProjectReport sampleProj ReportGroupingType.SPLIT_HALF with
  | Except.ok o => o
  | Except.error _ => ⟨[], ""⟩

def sampleFullOut : ProjOut :=
  match generateProjectReport [rowC2] ReportGroupingType.FULL_MONTH with
  | Except.ok o => o
  | Except.error _ => ⟨[], ""⟩

/-- The state of the shared class/process configuration after constructing a
parser and running the column pruning of one project report. -/
def firstProjectCall : GlobalState × List String :=
  removeUnusedColumns (parserInit ⟨"Calibri", unusedColumnsInit⟩) true

/-- The same pruning run a second time in the same process. -/
def secondProjectCall : GlobalState × List String :=
  removeUnusedColumns firstProjectCall.1 true

/-! ## Claim theorems -/

/-- The aggregate the fold produces for task `"T1"` of the sample rows. -/
def sampleAgg : TaskAgg :=
  ((taskFold sampleProj).headD ("", ⟨Val.vnone, 0, Option.none⟩)).2

/-- C1, counterexample: in `sampleProj` the two rows share task id `"T1"`;
the first row's estimate slot is null and the second row carries the only
non-null estimate, 5.  The claim says the aggregate keeps the first non-null
estimate (5), but the code coerces the first row's null to 0.0 before its
vacuous `is not None` test, so the retained estimate is 0, not 5. -/
theorem C1_counterexample :
    lookupTask (taskFold sampleProj) "T1" = some sampleAgg ∧
    sampleAgg.estimated = some 0 ∧
    rowP1.field5 = Val.vnone ∧ rowP2.field5 = Val.vnum 5 ∧
    sampleAgg.estimated ≠ some 5 := by
  refine ⟨rfl, rfl, rfl, rfl, ?_⟩
  rw [show sampleAgg.estimated = some 0 from rfl]
  intro h
  injection h with h
  exact absurd h (by norm_num)

/-- C1, amended: in every project-report aggregation fold, the retained
estimate of a task equals `float(row[5] or 0.0)` of the *first* row carrying
that task id — i.e. the first row's estimate with null coerced to 0.0 —
and no later row ever overwrites it. -/
theorem C1_theorem (rows : List Row) (tid : String) (agg : TaskAgg)
    (h : lookupTask (taskFold rows) tid = some agg) :
    ∃ r, firstOccur tid rows = some r ∧ agg.estimated = some (floatOrZero r.field5) := by
  cases hf : firstOccur tid rows with
  | none =>
      rw [taskFold] at h
      rw [lookup_absent rows [] tid rfl hf] at h
      exact absurd h (by simp)
  | some r =>
      obtain ⟨agg', ha', he⟩ := estimate_first_row rows [] tid r rfl hf
      rw [taskFold] at h
      rw [h] at ha'
      injection ha' with hh
      exact ⟨r, rfl, by rw [hh]; exact he⟩

theorem C1_theorem_witness :
    ∃ r, firstOccur "T1" sampleProj = some r ∧
      sampleAgg.estimated = some (floatOrZero r.field5) :=
  C1_theorem sampleProj "T1" sampleAgg rfl

/-- C2, counterexample: in a project report the hyperlink is built from
field 6 of the row (the slot the spec's 7-field shape calls
`estimated_hours`), not from field 5 (the spec's `task_id` slot): on a row
with estimate 5 in slot 5 and id `"123"` in slot 6 the emitted link ends in
`123`, not in `5`. -/
theorem C2_counterexample :
    generateProjectReport [rowC2] ReportGroupingType.FULL_MONTH =
      Except.ok sampleFullOut ∧
    getCell sampleFullOut.sheet 3 2 =
      CellVal.link ("https://avada.teamwork.com/#tasks/" ++ pyStr rowC2.field6) ∧
    getCell sampleFullOut.sheet 3 2 ≠
      CellVal.link ("https://avada.teamwork.com/#tasks/" ++ pyStr rowC2.field5) ∧
    rowC2.field6 ≠ rowC2.field5 := by
  refine ⟨rfl, by decide, by decide, by decide⟩

/-- C2, amended: every hyperlink cell of a financial report points to
`https://avada.teamwork.com/#tasks/{row[5]}` for some input row (field 5 is
the spec shape's `task_id` slot), while every hyperlink cell of a project
report points to `https://avada.teamwork.com/#tasks/{row[6]}` for some input
row — in project reports the task id is read from the seventh field. -/
theorem C2_theorem :
    (∀ (data : List Row) (rate : Int) (exch : ℚ) (out : FinOut),
      generateFinancialReport data rate exch = Except.ok out →
      ∀ w ∈ out.sheet, ∀ u, w.val = CellVal.link u →
        ∃ row ∈ data, u = teamworkBase ++ pyStr row.field5) ∧
    (∀ (data : List Row) (gt : ReportGroupingType) (out : ProjOut),
      generateProjectReport data gt = Except.ok out →
      ∀ w ∈ out.sheet, ∀ u, w.val = CellVal.link u →
        ∃ row ∈ data, u = teamworkBase ++ pyStr row.field6) := by
  constructor
  · intro data rate exch out h w hw u hu
    obtain ⟨hs, first, rest, d0, hl, hd, rfl⟩ := generateFinancial_ok h
    dsimp only at hw
    rw [finSheet] at hw
    simp only [List.append_assoc, List.mem_append] at hw
    rcases hw with hw | hw | hw
    · exact absurd hu (headerWrites_no_links hw)
    · obtain ⟨row, hrow, hu'⟩ := financialBlocks_links hw hu
      exact ⟨row, (mem_pySortByDate row data).mp (mem_flatGroups_groupByProject _ _ hrow), hu'⟩
    · exact absurd hu (bottomTotals_no_links hw)
  · intro data gt out h w hw u hu
    cases gt
    · obtain ⟨hs, first, rest, d0, hl, hd, rfl⟩ := generateProject_full_ok h
      dsimp only at hw
      rcases List.mem_append.mp hw with hw | hw
      · exact absurd hu (headerWrites_no_links hw)
      · obtain ⟨rows, ⟨p, hp⟩, tid, htid, hu'⟩ := projBlocks_links hw hu
        obtain ⟨row, hrow, htid'⟩ := keys_taskFold rows tid htid
        refine ⟨row, ?_, by rw [hu', htid']⟩
        exact (mem_pySortByDate row data).mp
          (mem_flatGroups_groupByProject _ _ (mem_flatGroups_of_group hp hrow))
    · obtain ⟨hs, first, rest, d0, hl, hd, rfl⟩ := generateProject_split_ok h
      dsimp only at hw
      rcases List.mem_append.mp hw with hw | hw
      · exact absurd hu (headerWrites_no_links hw)
      · obtain ⟨rows, ⟨p, hp⟩, tid, htid, hu'⟩ := splitBody_links hw hu
        obtain ⟨row, hrow, htid'⟩ := keys_taskFold rows tid htid
        refine ⟨row, ?_, by rw [hu', htid']⟩
        refine (mem_pySortByDate row data).mp (mem_splitGroups_sub _ row ?_)
        rcases hp with hp | hp
        · exact Or.inl (mem_flatGroups_of_group hp hrow)
        · exact Or.inr (mem_flatGroups_of_group hp hrow)

theorem C2_theorem_witness :
    ∃ row ∈ ([rowC2] : List Row),
      ("https://avada.teamwork.com/#tasks/123" : String) =
        teamworkBase ++ pyStr row.field6 :=
  C2_theorem.2 [rowC2] ReportGroupingType.FULL_MONTH sampleFullOut rfl
    ⟨3, 2, CellVal.link "https://avada.teamwork.com/#tasks/123"⟩ (by decide)
    "https://avada.teamwork.com/#tasks/123" rfl

/-- C6: within any project (or project-within-period) group of a project
report, the sum of the aggregated per-task hours equals the sum of the raw
hours of the rows of that group (null hours defaulting to 0.0); the numeric
hypothesis restricts the fields to the domain on which Python's `float`
coercion is total. -/
theorem C6_theorem (data : List Row) (p : String) (rows : List Row)
    (_hg : (p, rows) ∈ groupByProject data ∨
          (p, rows) ∈ (splitGroups data).p1 ∨ (p, rows) ∈ (splitGroups data).p2)
    (_hnum : rows.all (fun r => numericVal r.hours) = true) :
    hoursTotal (taskFold rows) = rawHoursTotal rows := by
  rw [taskFold, hoursTotal_foldl]
  simp [hoursTotal]

theorem C6_theorem_witness :
    hoursTotal (taskFold [rowP1, rowP2]) = rawHoursTotal [rowP1, rowP2] :=
  C6_theorem sampleProj "Alpha" [rowP1, rowP2]
    (Or.inl (List.mem_singleton_self ("Alpha", [rowP1, rowP2]))) (by decide)

/-- C8: `_parse_date` does degrade the malformed date to null and the row
writer renders it as an empty string, but report generation itself aborts on
every input containing a malformed date: a lone malformed row reaches the
filename derivation, whose `data[0][0].strftime` raises `AttributeError` on
the non-datetime raw value, and a malformed string mixed with a native
datetime already raises `TypeError` inside `data.sort`. -/
theorem C8_theorem :
    parseDate badDateRow.date = Option.none ∧
    getCellD (financialRowWrites 3 badDateRow 7 8) 3 8 CellVal.empty = CellVal.str "" ∧
    generateFinancialReport [badDateRow] 50 41 = Except.error PyErr.attributeError ∧
    generateFinancialReport [badDateRow, rowA] 50 41 = Except.error PyErr.typeError := by
  refine ⟨rfl, by decide, rfl, rfl⟩

/-- C9: invoked on a dataset with no data rows, both report generators fail
by indexing `data[0]` into the empty list — an `IndexError`, not a
descriptive `EmptyDataset` error (no such error exists in the code). -/
theorem C9_theorem :
    generateFinancialReport [] 50 41 = Except.error PyErr.indexError ∧
    generateProjectReport [] ReportGroupingType.SPLIT_HALF =
      Except.error PyErr.indexError ∧
    generateProjectReport [] ReportGroupingType.FULL_MONTH =
      Except.error PyErr.indexError := by
  refine ⟨rfl, rfl, rfl⟩

/-- C10: shared mutable state crosses invocations.  Constructing the parser
rewrites the process-wide default font, and each project-report pruning pops
index 14 off the shared class-level `UNUSED_COLUMNS` list: the first call
deletes column S but keeps T (contradicting the code's own comment), and the
second call deletes a different column set (it also keeps U), so two
consecutive calls with the same inputs behave differently. -/
theorem C10_theorem :
    (parserInit ⟨"Calibri", unusedColumnsInit⟩).defaultFontName ≠ "Calibri" ∧
    firstProjectCall.2 ≠ secondProjectCall.2 ∧
    "U" ∈ firstProjectCall.2 ∧ "U" ∉ secondProjectCall.2 ∧
    "T" ∉ firstProjectCall.2 ∧ "S" ∈ firstProjectCall.2 := by decide

/-- C4, counterexample: on a one-entry dataset the rate input cell is
written at row 7 and the totals block occupies rows 8–10 (its first label at
row 8, its last formula at row 10), so the input cells are *not* below the
totals block — the rate cell sits above it and the exchange cell shares its
first row. -/
theorem C4_counterexample :
    generateFinancialReport [rowA] 50 41 = Except.ok sampleFin1Out ∧
    getCell sampleFin1Out.sheet 7 7 = CellVal.num ((50 : Int) : ℚ) ∧
    getCell sampleFin1Out.sheet 8 7 = CellVal.num 41 ∧
    getCell sampleFin1Out.sheet 8 2 = CellVal.str "ИТОГО часов" ∧
    getCell sampleFin1Out.sheet 10 4 = CellVal.fSumDiv 7 2 3 41 ∧
    7 < 8 := by
  refine ⟨rfl, rfl, rfl, rfl, rfl, by norm_num⟩

/-- C4, amended: the look-ahead pass places the rate input at row
`total_data_rows + 2` and the exchange input at the following row, both in
column G, and both rows lie strictly below every data row; but they do not
lie below the totals block: the totals block begins at row
`total_data_rows + 3`, i.e. exactly at the exchange row, one row below the
rate row. -/
theorem C4_theorem (data : List Row) (rate : Int) (exch : ℚ) (out : FinOut)
    (h : generateFinancialReport data rate exch = Except.ok out) :
    finRateRow data = finTotal data + 2 ∧
    finExchRow data = finRateRow data + 1 ∧
    getCell out.sheet (finRateRow data) 7 = CellVal.num (rate : ℚ) ∧
    getCell out.sheet (finExchRow data) 7 = CellVal.num exch ∧
    (∀ p ∈ entryAssign 2 (finGroups data), p.1 < finRateRow data) ∧
    getCell out.sheet (finTotal data + 3) 2 = CellVal.str "ИТОГО часов" ∧
    finExchRow data = finTotal data + 3 := by
  obtain ⟨hs, first, rest, d0, hl, hd, rfl⟩ := generateFinancial_ok h
  dsimp only
  refine ⟨rfl, rfl, ?_, ?_, ?_, ?_, rfl⟩
  · exact finSheet_rate_input (pySortByDate data) rate exch
  · exact finSheet_exch_input (pySortByDate data) rate exch
  · intro p hp
    obtain ⟨r, row⟩ := p
    have := mem_entryAssign_bounds hp
    show r < finRateRow data
    rw [finRateRow, finTotal]
    omega
  · exact finSheet_totals_label (pySortByDate data) rate exch

theorem C4_theorem_witness :
    finRateRow [rowA] = finTotal [rowA] + 2 ∧
    finExchRow [rowA] = finRateRow [rowA] + 1 ∧
    getCell sampleFin1Out.sheet (finRateRow [rowA]) 7 = CellVal.num ((50 : Int) : ℚ) ∧
    getCell sampleFin1Out.sheet (finExchRow [rowA]) 7 = CellVal.num 41 ∧
    (∀ p ∈ entryAssign 2 (finGroups [rowA]), p.1 < finRateRow [rowA]) ∧
    getCell sampleFin1Out.sheet (finTotal [rowA] + 3) 2 = CellVal.str "ИТОГО часов" ∧
    finExchRow [rowA] = finTotal [rowA] + 3 :=
  C4_theorem [rowA] 50 41 sampleFin1Out rfl

/-- C3: every data row's rate cell and exchange-rate cell are formulas
referencing the absolute-address input cells `$G$rate_row`/`$G$exchange_row`
(rendered exactly so), those input cells hold the literal rate and exchange
values, and the cost formula `=D{r}*E{r}*F{r}` evaluates — under the
spreadsheet evaluator — to `hours * rate * exchange_rate`. -/
theorem C3_theorem (data : List Row) (rate : Int) (exch : ℚ) (out : FinOut)
    (h : generateFinancialReport data rate exch = Except.ok out)
    (r : Nat) (row : Row)
    (hm : (r, row) ∈ entryAssign 2 (finGroups data)) :
    getCell out.sheet r 5 = CellVal.fRef (finRateRow data) 7 ∧
    getCell out.sheet r 6 = CellVal.fRef (finExchRow data) 7 ∧
    rend (getCell out.sheet r 5) = "=$G$" ++ toString (finRateRow data) ∧
    getCell out.sheet (finRateRow data) 7 = CellVal.num (rate : ℚ) ∧
    getCell out.sheet (finExchRow data) 7 = CellVal.num exch ∧
    getCell out.sheet r 4 = CellVal.num (floatOrZero row.hours) ∧
    getCell out.sheet r 7 = CellVal.fProd r ∧
    evalCell out.sheet 3 (getCell out.sheet r 7) =
      floatOrZero row.hours * (rate : ℚ) * exch := by
  obtain ⟨hs, first, rest, d0, hl, hd, rfl⟩ := generateFinancial_ok h
  dsimp only
  have h5 : getCell (finSheet (pySortByDate data) rate exch) r 5 =
      CellVal.fRef (finRateRow data) 7 := by
    rw [getCell_finSheet_entry 5 hm, finRW_col5]
    rfl
  have h6 : getCell (finSheet (pySortByDate data) rate exch) r 6 =
      CellVal.fRef (finExchRow data) 7 := by
    rw [getCell_finSheet_entry 6 hm, finRW_col6]
    rfl
  have h4 : getCell (finSheet (pySortByDate data) rate exch) r 4 =
      CellVal.num (floatOrZero row.hours) := by
    rw [getCell_finSheet_entry 4 hm, finRW_col4]
  have h7 : getCell (finSheet (pySortByDate data) rate exch) r 7 =
      CellVal.fProd r := by
    rw [getCell_finSheet_entry 7 hm, finRW_col7]
  refine ⟨h5, h6, by rw [h5]; rfl, finSheet_rate_input _ _ _, finSheet_exch_input _ _ _,
    h4, h7, ?_⟩
  rw [h7, evalCell_fProd, h4, h5, h6, evalCell_num, evalCell_fRef, evalCell_fRef]
  rw [show finRateRow data = totalOf (groupByProject (pySortByDate data)) + 2 from rfl]
  rw [show finExchRow data = totalOf (groupByProject (pySortByDate data)) + 3 from rfl]
  rw [finSheet_rate_input, finSheet_exch_input, evalCell_num, evalCell_num]

/-- C5, counterexample: on the two-row Scenario A dataset the totals `SUM`
formulas range over rows 2–4, but row 2 is the merged project-title row (its
hours column is empty) and the first data row is row 3 — the range does not
start at the first data row. -/
theorem C5_counterexample :
    generateFinancialReport sampleFin 50 41 = Except.ok sampleFinOut ∧
    getCell sampleFinOut.sheet 9 4 = CellVal.fSum 4 2 4 ∧
    getCell sampleFinOut.sheet 3 4 = CellVal.num (5 / 2) ∧
    getCell sampleFinOut.sheet 2 4 = CellVal.empty ∧
    getCell sampleFinOut.sheet 2 1 = CellVal.str "Alpha" ∧
    (2 : Nat) ≠ 3 := by
  refine ⟨rfl, rfl, rfl, rfl, rfl, by omega⟩

/-- C5, amended: the totals `SUM` formulas range from row 2 — the first row
after the header, which is the first project's merged title row — through the
last data row, for any number of projects; every data row lies inside that
range (all data rows sit in rows 3 through `last_data_row`), and because the
title and blank rows of the range hold no numbers in the summed column, the
hours `SUM` still evaluates to the total raw hours of the dataset. -/
theorem C5_theorem (data : List Row) (rate : Int) (exch : ℚ) (out : FinOut)
    (h : generateFinancialReport data rate exch = Except.ok out) :
    getCell out.sheet (finTotal data + 3) 4 = CellVal.fSum 4 2 (finLastDataRow data) ∧
    getCell out.sheet (finTotal data + 4) 4 = CellVal.fSum 7 2 (finLastDataRow data) ∧
    (∀ p ∈ entryAssign 2 (finGroups data), 3 ≤ p.1 ∧ p.1 ≤ finLastDataRow data) ∧
    evalCell out.sheet 2 (CellVal.fSum 4 2 (finLastDataRow data)) = rawHoursTotal data := by
  obtain ⟨hs, first, rest, d0, hl, hd, rfl⟩ := generateFinancial_ok h
  dsimp only
  have hne : groupByProject (pySortByDate data) ≠ [] := by
    refine groupByProject_ne_nil first (pySortByDate data) ?_
    rw [hl]
    exact List.mem_cons_self _ _
  have hT4 : 4 ≤ totalOf (groupByProject (pySortByDate data)) := by
    cases hG : groupByProject (pySortByDate data) with
    | nil => exact absurd hG hne
    | cons g rest' => exact hG ▸ totalOf_pos g rest'
  refine ⟨finSheet_sum_hours _ _ _, finSheet_sum_uah _ _ _, ?_, ?_⟩
  · intro p hp
    obtain ⟨r, row⟩ := p
    have hb := mem_entryAssign_bounds hp
    show 3 ≤ r ∧ r ≤ finLastDataRow data
    rw [finLastDataRow, finTotal]
    rw [show finGroups data = groupByProject (pySortByDate data) from rfl] at hb ⊢
    omega
  · rw [evalCell_fSum]
    have hlen : finLastDataRow data + 1 - 2 =
        totalOf (groupByProject (pySortByDate data)) - 3 := by
      rw [finLastDataRow, finTotal]
      rw [show finGroups data = groupByProject (pySortByDate data) from rfl]
      omega
    rw [hlen]
    have hcong : ∀ r ∈ List.range' 2 (totalOf (groupByProject (pySortByDate data)) - 3),
        evalCell (finSheet (pySortByDate data) rate exch) 1
          (getCell (finSheet (pySortByDate data) rate exch) r 4) =
        litNum (getCellD ((financialBlocks 2 (groupByProject (pySortByDate data))
          (totalOf (groupByProject (pySortByDate data)) + 2)
          (totalOf (groupByProject (pySortByDate data)) + 3)).1) r 4 CellVal.empty) := by
      intro r hr
      obtain ⟨i, hi, rfl⟩ := List.mem_range'.mp hr
      simp only [one_mul]
      rw [getCell_finSheet_range (by omega) (by omega)]
      exact evalCell_litNum _ (getCellD_col_shape financialBlocks_col4 (Or.inr rfl))
    rw [List.map_congr_left hcong]
    rw [sum_financialBlocks _ _ _ _ hne, rawHoursTotal_groupByProject,
      rawHoursTotal_pySortByDate]

theorem C5_theorem_witness :
    getCell sampleFinOut.sheet (finTotal sampleFin + 3) 4 =
      CellVal.fSum 4 2 (finLastDataRow sampleFin) ∧
    getCell sampleFinOut.sheet (finTotal sampleFin + 4) 4 =
      CellVal.fSum 7 2 (finLastDataRow sampleFin) ∧
    (∀ p ∈ entryAssign 2 (finGroups sampleFin),
      3 ≤ p.1 ∧ p.1 ≤ finLastDataRow sampleFin) ∧
    evalCell sampleFinOut.sheet 2 (CellVal.fSum 4 2 (finLastDataRow sampleFin)) =
      rawHoursTotal sampleFin :=
  C5_theorem sampleFin 50 41 sampleFinOut rfl

/-- C7: split-half bucketing puts every row with a parsed date of
day-of-month at most 15 into the first bucket and every other parsed row
into the second; rows whose date fails to parse appear in neither bucket;
the second period banner displays exactly `calendar.monthrange`'s last day
of the month, whose value follows the Gregorian rule (29 for February of a
leap year, 28 otherwise, 30 for April/June/September/November, 31 for the
rest); and the split report's sheet carries that banner. -/
theorem C7_theorem :
    (∀ (rows : List Row) (row : Row) (d : DT), row ∈ rows →
        parseDate row.date = some d →
        (d.day ≤ 15 → row ∈ flatGroups (splitGroups rows).p1) ∧
        (¬ d.day ≤ 15 → row ∈ flatGroups (splitGroups rows).p2)) ∧
    (∀ (rows : List Row) (row : Row), parseDate row.date = Option.none →
        row ∉ flatGroups (splitGroups rows).p1 ∧
        row ∉ flatGroups (splitGroups rows).p2) ∧
    (∀ d : DT, (buildPeriodTitles d).2 =
        "Period: 16." ++ pad2 d.month ++ "." ++ toString d.year ++ " – " ++
          toString (monthLastDay d.year d.month) ++ "." ++ pad2 d.month ++ "." ++
          toString d.year) ∧
    (∀ (data : List Row) (out : ProjOut) (first : Row) (rest : List Row) (d0 : DT),
        generateProjectReport data ReportGroupingType.SPLIT_HALF = Except.ok out →
        pySortByDate data = first :: rest → first.date = Val.vdt d0 →
        ∃ rB, (⟨rB, 1, CellVal.str ((buildPeriodTitles d0).2)⟩ : Write) ∈ out.sheet) ∧
    (∀ y, isLeap y = true ↔ (y % 4 = 0 ∧ (y % 100 ≠ 0 ∨ y % 400 = 0))) ∧
    (∀ y, isLeap y = true → monthLastDay y 2 = 29) ∧
    (∀ y, isLeap y = false → monthLastDay y 2 = 28) ∧
    (∀ y m, (m = 4 ∨ m = 6 ∨ m = 9 ∨ m = 11) → monthLastDay y m = 30) ∧
    (∀ y m, (m = 1 ∨ m = 3 ∨ m = 5 ∨ m = 7 ∨ m = 8 ∨ m = 10 ∨ m = 12) →
        monthLastDay y m = 31) := by
  refine ⟨?_, ?_, ?_, ?_, ?_, ?_, ?_, ?_, ?_⟩
  · intro rows row d hmem hp
    exact mem_splitGroups_of_day rows row d hmem hp
  · intro rows row hp
    constructor
    · intro hmem
      obtain ⟨d, hd⟩ := splitGroups_parsable rows row (Or.inl hmem)
      rw [hp] at hd
      exact absurd hd (by simp)
    · intro hmem
      obtain ⟨d, hd⟩ := splitGroups_parsable rows row (Or.inr hmem)
      rw [hp] at hd
      exact absurd hd (by simp)
  · intro d
    rfl
  · intro data out first rest d0 hok hl hd
    obtain ⟨hs, first', rest', d0', hl', hd', rfl⟩ := generateProject_split_ok hok
    rw [hl] at hl'
    injection hl' with hf _
    subst hf
    rw [hd] at hd'
    injection hd' with hdd
    subst hdd
    refine ⟨(projBlocks (2 + 1) (splitGroups (pySortByDate data)).p1).2 + 2, ?_⟩
    dsimp only
    refine List.mem_append.mpr (Or.inr ?_)
    rw [splitBody]
    dsimp only
    refine List.mem_cons.mpr (Or.inr ?_)
    refine List.mem_append.mpr (Or.inr ?_)
    exact List.mem_cons.mpr (Or.inl rfl)
  · intro y
    simp [isLeap, Nat.beq_eq_true_eq, bne_iff_ne]
  · intro y hy
    simp [monthLastDay, hy]
  · intro y hy
    simp [monthLastDay, hy]
  · intro y m hm
    rcases hm with rfl | rfl | rfl | rfl <;> simp [monthLastDay]
  · intro y m hm
    rcases hm with rfl | rfl | rfl | rfl | rfl | rfl | rfl <;> simp [monthLastDay]

theorem C7_theorem_witness :
    rowP1 ∈ flatGroups (splitGroups sampleProj).p1 ∧
    rowP2 ∈ flatGroups (splitGroups sampleProj).p2 ∧
    (∃ rB, (⟨rB, 1, CellVal.str ((buildPeriodTitles ⟨2024, 2, 3⟩).2)⟩ : Write) ∈
      sampleSplitOut.sheet) ∧
    monthLastDay 2024 2 = 29 ∧ monthLastDay 2023 2 = 28 ∧
    monthLastDay 2024 4 = 30 ∧ monthLastDay 2024 5 = 31 := by
  refine ⟨?_, ?_, ?_, ?_, ?_, ?_, ?_⟩
  · exact (C7_theorem.1 sampleProj rowP1 ⟨2024, 2, 3⟩
      (List.mem_cons_self rowP1 [rowP2]) rfl).1 (by norm_num)
  · exact (C7_theorem.1 sampleProj rowP2 ⟨2024, 2, 20⟩
      (List.mem_cons_of_mem rowP1 (List.mem_cons_self rowP2 [])) rfl).2 (by norm_num)
  · exact C7_theorem.2.2.2.1 sampleProj sampleSplitOut rowP1 [rowP2] ⟨2024, 2, 3⟩
      rfl rfl rfl
  · exact C7_theorem.2.2.2.2.2.1 2024 (by decide)
  · exact C7_theorem.2.2.2.2.2.2.1 2023 (by decide)
  · exact C7_theorem.2.2.2.2.2.2.2.1 2024 4 (Or.inl rfl)
  · exact C7_theorem.2.2.2.2.2.2.2.2 2024 5 (Or.inr (Or.inr (Or.inl rfl)))

theorem C3_theorem_witness :
    getCell sampleFinOut.sheet 3 5 = CellVal.fRef (finRateRow sampleFin) 7 ∧
    getCell sampleFinOut.sheet 3 6 = CellVal.fRef (finExchRow sampleFin) 7 ∧
    rend (getCell sampleFinOut.sheet 3 5) = "=$G$" ++ toString (finRateRow sampleFin) ∧
    getCell sampleFinOut.sheet (finRateRow sampleFin) 7 = CellVal.num ((50 : Int) : ℚ) ∧
    getCell sampleFinOut.sheet (finExchRow sampleFin) 7 = CellVal.num 41 ∧
    getCell sampleFinOut.sheet 3 4 = CellVal.num (floatOrZero rowA.hours) ∧
    getCell sampleFinOut.sheet 3 7 = CellVal.fProd 3 ∧
    evalCell sampleFinOut.sheet 3 (getCell sampleFinOut.sheet 3 7) =
      floatOrZero rowA.hours * ((50 : Int) : ℚ) * 41 :=
  C3_theorem sampleFin 50 41 sampleFinOut rfl 3 rowA
    (List.mem_cons_self (3, rowA) [(4, rowB)])

end WorkTime
